import Mathlib

/-!
Shallow embedding of the InnoDB index-page and physical-record core
(`rem/rem0rec.cc` and `page/page0page.cc`), together with proofs of the
specification claims about it.

Machine integers (`ulint`, `byte`) are embedded as `Nat`; byte casts are
written `% 256` and C bit operations are kept as `&&&`, `|||`, `<<<`, `>>>`.
Byte buffers are embedded as `List Nat`.  Pointer loops of the source are
embedded as structural recursion, with an explicit fuel argument wherever
the C loop's termination depends on the page contents.

First come all definitions, then all theorems.
-/

set_option maxRecDepth 10000

/-! ## Constants shared by the two source files

Values are taken from the headers `rem0rec.h`, `page0page.h`, `univ.i`
(documented in the specification's byte-layout section). -/

/-- Number of extra bytes (header suffix) of a new-style (compact) record:
next-pointer (2), info+n_owned (1), heap_no+status (2). -/
def REC_N_NEW_EXTRA_BYTES : Nat := 5

/-- Number of extra fixed bytes of an old-style (redundant) record. -/
def REC_N_OLD_EXTRA_BYTES : Nat := 6

/-- Size of the child page number field of a node pointer record. -/
def REC_NODE_PTR_SIZE : Nat := 4

/-- Maximum data size for one-byte offsets in the redundant format. -/
def REC_1BYTE_OFFS_LIMIT : Nat := 0x7f

/-- SQL-null flag bit of a one-byte redundant end offset. -/
def REC_1BYTE_SQL_NULL_MASK : Nat := 0x80

/-- SQL-null flag bit of a two-byte redundant end offset. -/
def REC_2BYTE_SQL_NULL_MASK : Nat := 0x8000

/-- External-storage flag bit of a two-byte redundant end offset. -/
def REC_2BYTE_EXTERN_MASK : Nat := 0x4000

/-- Number of bytes needed to hold `b` bits (`ut_bits_in_bytes`). -/
def UT_BITS_IN_BYTES (b : Nat) : Nat := (b + 7) / 8

/-! ## Data dictionary objects

Embedding of the parts of `dict_col_t`, `dict_field_t`, `dict_index_t`
that the record codec and the page routines consult. -/

/-- Column descriptor.  `len` is the column's maximum length in bytes
(`col->len`); `notNull` embeds `prtype & DATA_NOT_NULL`. -/
structure dict_col_t where
  len : Nat
  notNull : Bool
deriving DecidableEq

/-- Embeds the `DATA_BIG_COL(col)` macro: a column whose maximum length
exceeds 255 bytes.  (The macro also admits `DATA_BIG_MTYPE` types — BLOB and
GEOMETRY — whose maximum length always exceeds 255 bytes, so in this
embedding the `len` bound subsumes the mtype test.) -/
def DATA_BIG_COL (c : dict_col_t) : Bool := decide (255 < c.len)

/-- Index field descriptor: the column and `fixed_len`
(0 means variable length). -/
structure dict_field_t where
  col : dict_col_t
  fixed_len : Nat
deriving DecidableEq

/-- Index descriptor.  `fields` lists the fields in index order; the Bool
flags embed `dict_table_is_comp(index->table)`,
`dict_index_is_sec_or_ibuf(index)`, `dict_table_is_temporary(index->table)`
and `dict_index_is_spatial(index)`. -/
structure dict_index_t where
  fields : List dict_field_t
  comp : Bool
  sec_or_ibuf : Bool
  temporary : Bool
  spatial : Bool

/-- Embeds `index->n_nullable`: the number of nullable columns of the
index (the dictionary keeps it equal to the count over `fields`). -/
def dict_index_t.n_nullable (idx : dict_index_t) : Nat :=
  (idx.fields.filter (fun f => !f.col.notNull)).length

/-- Data tuple field (`dfield_t`).  `isNull` embeds `dfield_is_null`
(len == UNIV_SQL_NULL), `ext` embeds `dfield_is_ext`, `data` the pointed-to
bytes (`dfield_get_data` / `dfield_get_len`).  `sql_null_size` embeds
`dtype_get_sql_null_size(dfield_get_type(field), 0)`, the number of zero
bytes a SQL-null field of this type occupies in the redundant format
(its definition lives in `data0type.ic`, outside the sources here; per the
spec a fixed-size type occupies its fixed size and a variable type zero). -/
structure dfield_t where
  isNull : Bool
  ext : Bool
  data : List Nat
  sql_null_size : Nat
deriving DecidableEq

/-- Embeds `dfield_get_len` of a non-null field. -/
def dfield_get_len (f : dfield_t) : Nat := f.data.length

/-- Record status bits (`rec_get_status`): REC_STATUS_ORDINARY,
REC_STATUS_NODE_PTR, REC_STATUS_INFIMUM, REC_STATUS_SUPREMUM. -/
inductive rec_status where
  | ordinary
  | node_ptr
  | infimum
  | supremum
deriving DecidableEq

/-! ## Compact (new-style) record encoder

Embeds `rec_convert_dtuple_to_rec_comp` (rem0rec.cc:1214-1431) for
`temp=false`, `v_entry=NULL` and `rec_convert_dtuple_to_rec_new`
(rem0rec.cc:1439-1463).

A compact record is represented by its three variable parts.  In the byte
frame the length-prefix bytes and the null bitmap sit at decreasing
addresses below the origin; `lens` holds the length-prefix bytes in the
order the encoder writes them through `*lens--` (which is also the order
the decoder reads them through `*lens--`), `nullBytes` holds the null
bitmap bytes in the order of decreasing addresses starting at
`rec - (REC_N_NEW_EXTRA_BYTES + 1)`, and `data` the field data from the
origin upward. -/
structure RecComp where
  nullBytes : List Nat
  lens : List Nat
  data : List Nat
deriving DecidableEq

/-- Length-prefix bytes the encoder writes for one non-null field
(rem0rec.cc:1344-1376), in write order:
fixed-length fields store no length; an externally stored field stores two
bytes `(len >> 8) | 0xc0, (byte) len`; otherwise one byte `(byte) len`
when `len < 128` or the column is not big, else two bytes
`(len >> 8) | 0x80, (byte) len`. -/
def rec_comp_len_bytes (ifield : dict_field_t) (f : dfield_t) : List Nat :=
  let len := dfield_get_len f
  if ifield.fixed_len ≠ 0 then []
  else if f.ext then [((len >>> 8) % 256) ||| 0xc0, len % 256]
  else if len < 128 || !DATA_BIG_COL ifield.col then [len % 256]
  else [((len >>> 8) % 256) ||| 0x80, len % 256]

/-- Field loop of `rec_convert_dtuple_to_rec_comp` (rem0rec.cc:1290-1380),
excluding the node-pointer field.  Returns the null-bitmap bits (one per
nullable field, in bitmap order), the length-prefix bytes (in write order)
and the data bytes. -/
def rec_convert_comp_fields :
    List (dict_field_t × dfield_t) → List Bool × List Nat × List Nat
  | [] => ([], [], [])
  | (ifield, f) :: rest =>
    let r := rec_convert_comp_fields rest
    if ifield.col.notNull = false then
      -- nullable field: write the null bit; a null field stores nothing else
      if f.isNull then (true :: r.1, r.2.1, r.2.2)
      else (false :: r.1, rec_comp_len_bytes ifield f ++ r.2.1, f.data ++ r.2.2)
    else (r.1, rec_comp_len_bytes ifield f ++ r.2.1, f.data ++ r.2.2)

/-- State machine packing the null bits into bitmap bytes, mirroring the
encoder's `(nulls, null_mask)` state: `pos` is the bit position of the
mask (`null_mask = 2 ^ pos`) and `cur` the byte being assembled; when the
mask overflows the byte is emitted and the mask resets to 1. -/
def packBitsAux : List Bool → Nat → Nat → List Nat
  | [], pos, cur => if pos = 0 then [] else [cur]
  | b :: rest, pos, cur =>
    let cur2 := cur + (if b then 2 ^ pos else 0)
    if pos = 7 then cur2 :: packBitsAux rest 0 0
    else packBitsAux rest (pos + 1) cur2

/-- Packs a bit list into bitmap bytes, 8 bits per byte, LSB first —
the encoder sets bits through `*nulls |= null_mask` with `null_mask`
starting at 1 and doubling. -/
def packBits (bs : List Bool) : List Nat := packBitsAux bs 0 0

/-- Null bitmap region of a compact record: `UT_BITS_IN_BYTES (n_nullable)`
bytes, cleared by `memset(lens + 1, 0, nulls - lens)` (rem0rec.cc:1285) and
then filled with the null bits; empty when the record has no fields. -/
def rec_comp_null_bytes (idx : dict_index_t) (nFields : Nat) (bits : List Bool) :
    List Nat :=
  if nFields = 0 then []
  else
    let packed := packBits bits
    packed ++ List.replicate (UT_BITS_IN_BYTES idx.n_nullable - packed.length) 0

/-- Embeds `rec_convert_dtuple_to_rec_comp` (rem0rec.cc:1214-1431) with
`temp=false`, `v_entry=NULL`.  For a node-pointer record the last field is
the child page number, copied without null bit or length prefix
(rem0rec.cc:1299-1305); for the other statuses all fields go through the
field loop. -/
def rec_convert_dtuple_to_rec_comp (idx : dict_index_t) (dfields : List dfield_t)
    (status : rec_status) : RecComp :=
  match status with
  | .node_ptr =>
    let r := rec_convert_comp_fields (List.zip idx.fields dfields.dropLast)
    { nullBytes := rec_comp_null_bytes idx dfields.length r.1
      lens := r.2.1
      data := r.2.2 ++ ((dfields.getLast?.map dfield_t.data).getD []) }
  | _ =>
    let r := rec_convert_comp_fields (List.zip idx.fields dfields)
    { nullBytes := rec_comp_null_bytes idx dfields.length r.1
      lens := r.2.1
      data := r.2.2 }

/-! ## Compact record size (`rec_get_converted_size_comp`) -/

/-- Extra-size contribution of one field in
`rec_get_converted_size_comp_..._low` (rem0rec.cc:875-932, the function
whose source name ends in `_prefix_low`; `temp=false`): nothing for a null
or fixed-length field, 2 bytes for an externally stored field, 1 byte when
`len < 128` or the column is not big, else 2 bytes. -/
def rec_field_extra_size (ifield : dict_field_t) (f : dfield_t) : Nat :=
  if f.isNull then 0
  else if ifield.fixed_len ≠ 0 then 0
  else if f.ext then 2
  else if dfield_get_len f < 128 || !DATA_BIG_COL ifield.col then 1
  else 2

/-- Embeds `rec_get_converted_size_comp_..._low` (rem0rec.cc:806-976, the
function whose source name ends in `_prefix_low`) with `temp=false`,
`v_entry=NULL`.  Returns `(extra_size, total size)`. -/
def rec_get_converted_size_comp_low (idx : dict_index_t)
    (dfields : List dfield_t) : Nat × Nat :=
  let pairs := List.zip idx.fields dfields
  let n_null := if dfields.length = 0 then 0 else idx.n_nullable
  let extra := REC_N_NEW_EXTRA_BYTES + UT_BITS_IN_BYTES n_null
      + (pairs.map (fun p => rec_field_extra_size p.1 p.2)).sum
  let dataSize := (pairs.map (fun p => if p.2.isNull then 0 else dfield_get_len p.2)).sum
  (extra, extra + dataSize)

/-- Embeds `rec_get_converted_size_comp` (rem0rec.cc:998-1038).
Returns `(extra_size, total size)`. -/
def rec_get_converted_size_comp (idx : dict_index_t) (status : rec_status)
    (dfields : List dfield_t) : Nat × Nat :=
  match status with
  | .ordinary => rec_get_converted_size_comp_low idx dfields
  | .node_ptr =>
    let r := rec_get_converted_size_comp_low idx dfields.dropLast
    (r.1, REC_NODE_PTR_SIZE + r.2)
  | .infimum => (REC_N_NEW_EXTRA_BYTES, REC_N_NEW_EXTRA_BYTES + 8)
  | .supremum => (REC_N_NEW_EXTRA_BYTES, REC_N_NEW_EXTRA_BYTES + 8)

/-- Extra (header) bytes of a compact record in buffer order: the
length-prefix bytes and bitmap bytes reversed into increasing addresses,
then the `REC_N_NEW_EXTRA_BYTES` fixed bytes (next pointer, info bits,
heap number and status, filled in by the callers). -/
def rec_comp_extra_bytes (r : RecComp) : List Nat :=
  r.lens.reverse ++ r.nullBytes.reverse ++ List.replicate REC_N_NEW_EXTRA_BYTES 0

/-- Whole byte string of a compact record, from the start of the
conversion buffer: extra bytes, then the data from the origin upward. -/
def rec_comp_bytes (r : RecComp) : List Nat :=
  rec_comp_extra_bytes r ++ r.data

/-- Embeds `rec_convert_dtuple_to_rec_new` (rem0rec.cc:1439-1463): computes
the converted size, places the record origin at `buf + extra_size`, and
runs the compact encoder.  Returns the origin offset and the buffer
bytes. -/
def rec_convert_dtuple_to_rec_new (idx : dict_index_t) (dfields : List dfield_t)
    (status : rec_status) : Nat × List Nat :=
  let sz := rec_get_converted_size_comp idx status dfields
  let r := rec_convert_dtuple_to_rec_comp idx dfields status
  (sz.1, rec_comp_bytes r)

/-! ## Old-style (redundant) record encoder

Embeds `rec_convert_dtuple_to_rec_old` (rem0rec.cc:1101-1208).  The record
is represented by the one-byte-offsets flag, the stored end-offset words in
field order, and the data bytes. -/
structure RecOld where
  oneByte : Bool
  ends : List Nat
  data : List Nat
deriving DecidableEq

/-- Embeds `dtuple_get_data_size(dtuple, 0)`: total data size, a SQL-null
field contributing its `dtype_get_sql_null_size`. -/
def dtuple_get_data_size (dfields : List dfield_t) : Nat :=
  (dfields.map (fun f => if f.isNull then f.sql_null_size else dfield_get_len f)).sum

/-- Field loop of `rec_convert_dtuple_to_rec_old` (rem0rec.cc:1148-1204):
given the running end offset, returns the stored end-offset words (with
null / extern bits ored in) and the data bytes (`data_write_sql_null`
writes `sql_null_size` zero bytes for a null field). -/
def rec_convert_old_fields (oneByte : Bool) :
    List dfield_t → Nat → List Nat × List Nat
  | [], _ => ([], [])
  | f :: rest, end_offset =>
    if f.isNull then
      let len := f.sql_null_size
      let e2 := end_offset + len
      let ored := if oneByte then e2 ||| REC_1BYTE_SQL_NULL_MASK
                  else e2 ||| REC_2BYTE_SQL_NULL_MASK
      let r := rec_convert_old_fields oneByte rest e2
      (ored :: r.1, List.replicate len 0 ++ r.2)
    else
      let len := dfield_get_len f
      let e2 := end_offset + len
      let ored := if oneByte then e2
                  else if f.ext then e2 ||| REC_2BYTE_EXTERN_MASK else e2
      let r := rec_convert_old_fields oneByte rest e2
      (ored :: r.1, f.data ++ r.2)

/-- Embeds `rec_convert_dtuple_to_rec_old` (rem0rec.cc:1101-1208): chooses
one-byte offsets when there is no externally stored column and the data
size is at most `REC_1BYTE_OFFS_LIMIT`, then runs the field loop. -/
def rec_convert_dtuple_to_rec_old (dfields : List dfield_t) (n_ext : Nat) :
    RecOld :=
  let data_size := dtuple_get_data_size dfields
  let oneByte : Bool := n_ext = 0 && data_size ≤ REC_1BYTE_OFFS_LIMIT
  let r := rec_convert_old_fields oneByte dfields 0
  { oneByte := oneByte, ends := r.1, data := r.2 }

/-! ## Record offsets (decoder)

Embeds `rec_init_offsets_comp_ordinary` (rem0rec.cc:262-372, `temp=false`),
the old-style branch of `rec_init_offsets` (rem0rec.cc:510-543) and
`rec_get_offsets_func` (rem0rec.cc:551-625).

An entry of the offsets array is the end offset of the field past the
origin together with the `REC_OFFS_SQL_NULL` and `REC_OFFS_EXTERNAL` flag
bits, which the source ors into the high bits of the same word. -/
structure FieldOffs where
  endOffs : Nat
  sqlNull : Bool
  ext : Bool
deriving DecidableEq

/-- Default field-offsets entry (used with `List.getD`). -/
def foffs0 : FieldOffs := ⟨0, false, false⟩

/-- Default tuple field (used with `List.getD`). -/
def dfield0 : dfield_t := ⟨false, false, [], 0⟩

/-- Default (field descriptor, tuple field) pair (used with `List.getD`). -/
def dpair0 : dict_field_t × dfield_t := (⟨⟨0, false⟩, 0⟩, dfield0)

/-- Reads bit `k` of the null bitmap.  The source keeps a byte pointer
`nulls` walking to decreasing addresses and a mask `null_mask` doubling
from 1; after `k` nullable fields it examines exactly bit `k % 8` of
bitmap byte `k / 8`. -/
def nthBitSet (bytes : List Nat) (k : Nat) : Bool :=
  (bytes.getD (k / 8) 0).testBit (k % 8)

/-- Length part of the decoder for one non-null field
(rem0rec.cc:328-365): a fixed-length field advances by `fixed_len`; a
variable-length field reads one length byte, and when the column is big
and the byte has the top bit set reads a second byte, the two forming
`1exxxxxxx xxxxxxxx` — 14 bits of length and the external-storage bit
`0x4000`.  Returns the offsets entry and the unread length bytes, or
`none` if the length bytes run out (a malformed record). -/
def rec_comp_read_field_len (ifield : dict_field_t) (lens : List Nat)
    (offs : Nat) : Option (FieldOffs × List Nat) :=
  if ifield.fixed_len ≠ 0 then some (⟨offs + ifield.fixed_len, false, false⟩, lens)
  else
    match lens with
    | [] => none
    | l :: ls =>
      if DATA_BIG_COL ifield.col && decide (l &&& 0x80 ≠ 0) then
        match ls with
        | [] => none
        | l2 :: ls2 =>
          let len16 := (l <<< 8) ||| l2
          if len16 &&& 0x4000 ≠ 0 then
            some (⟨offs + (len16 &&& 0x3fff), false, true⟩, ls2)
          else
            some (⟨offs + (len16 &&& 0x3fff), false, false⟩, ls2)
      else some (⟨offs + l, false, false⟩, ls)

/-- Field loop of `rec_init_offsets_comp_ordinary` (rem0rec.cc:300-368):
walks the fields, consuming null bits (for nullable fields) and length
bytes (for non-null variable fields), and accumulates the end offsets.
Returns the entries, the unread length bytes and the any-extern flag. -/
def rec_init_offsets_comp_fields (nulls : List Nat) :
    List dict_field_t → List Nat → Nat → Nat →
    Option (List FieldOffs × List Nat × Bool)
  | [], lens, _, _ => some ([], lens, false)
  | ifield :: rest, lens, bitIdx, offs =>
    if !ifield.col.notNull && nthBitSet nulls bitIdx then
      -- SQL null: no length is stored and offs does not advance
      match rec_init_offsets_comp_fields nulls rest lens (bitIdx + 1) offs with
      | none => none
      | some r => some (⟨offs, true, false⟩ :: r.1, r.2.1, r.2.2)
    else
      let bitIdx2 := if ifield.col.notNull then bitIdx else bitIdx + 1
      match rec_comp_read_field_len ifield lens offs with
      | none => none
      | some (fo, lens2) =>
        match rec_init_offsets_comp_fields nulls rest lens2 bitIdx2 fo.endOffs with
        | none => none
        | some r => some (fo :: r.1, r.2.1, r.2.2 || fo.ext)

/-- Embeds `rec_init_offsets_comp_ordinary` (rem0rec.cc:262-372) with
`temp=false`: decodes all index fields of an ordinary compact record and
computes the stored extra size `rec - (lens + 1)` — the fixed extra bytes
plus the bitmap bytes plus the consumed length bytes.  Returns the
entries, the extra size and the any-extern flag. -/
def rec_init_offsets_comp_ordinary (idx : dict_index_t) (r : RecComp) :
    Option (List FieldOffs × Nat × Bool) :=
  match rec_init_offsets_comp_fields r.nullBytes idx.fields r.lens 0 0 with
  | none => none
  | some (es, lensRest, anyExt) =>
    some (es, REC_N_NEW_EXTRA_BYTES + UT_BITS_IN_BYTES idx.n_nullable
      + (r.lens.length - lensRest.length), anyExt)

/-- Old-style decoding of one stored end-offset word (rem0rec.cc:513-541):
strip the null bit (`offs &= ~REC_1BYTE_SQL_NULL_MASK`, embedded for byte
values as `&&& 0x7f`) and, in the two-byte form, the null and extern bits
(`&&& 0x7fff`, `&&& 0xbfff`), raising the corresponding flags. -/
def rec_init_offsets_old_entry (oneByte : Bool) (e : Nat) : FieldOffs :=
  if oneByte then
    if e &&& REC_1BYTE_SQL_NULL_MASK ≠ 0 then ⟨e &&& 0x7f, true, false⟩
    else ⟨e, false, false⟩
  else
    let null1 : Bool := e &&& REC_2BYTE_SQL_NULL_MASK ≠ 0
    let e1 := if null1 then e &&& 0x7fff else e
    let ext1 : Bool := e1 &&& REC_2BYTE_EXTERN_MASK ≠ 0
    let e2 := if ext1 then e1 &&& 0xbfff else e1
    ⟨e2, null1, ext1⟩

/-- Embeds the old-style branch of `rec_init_offsets` (rem0rec.cc:510-543):
decodes every stored end offset of a redundant record. -/
def rec_init_offsets_old (r : RecOld) : List FieldOffs :=
  r.ends.map (rec_init_offsets_old_entry r.oneByte)

/-- Physical record of either format, as built by
`rec_convert_dtuple_to_rec`. -/
inductive PhysRec where
  | newRec (r : RecComp)
  | oldRec (r : RecOld)
deriving DecidableEq

/-- Embeds `rec_convert_dtuple_to_rec` (rem0rec.cc:1470-1518): dispatches
on `dict_table_is_comp(index->table)`. -/
def rec_convert_dtuple_to_rec (idx : dict_index_t) (dfields : List dfield_t)
    (status : rec_status) (n_ext : Nat) : PhysRec :=
  if idx.comp then .newRec (rec_convert_dtuple_to_rec_comp idx dfields status)
  else .oldRec (rec_convert_dtuple_to_rec_old dfields n_ext)

/-- Data bytes of a physical record, from the origin upward. -/
def PhysRec.recData : PhysRec → List Nat
  | .newRec r => r.data
  | .oldRec r => r.data

/-- Embeds `rec_get_offsets_func` + `rec_init_offsets`
(rem0rec.cc:388-625) for an ordinary user record with all fields
requested: for a compact record it decodes via the ordinary compact
routine, for a redundant record via the old-style branch. -/
def rec_get_offsets (idx : dict_index_t) (r : PhysRec) :
    Option (List FieldOffs × Nat × Bool) :=
  match r with
  | .newRec rc => rec_init_offsets_comp_ordinary idx rc
  | .oldRec ro =>
    some (rec_init_offsets_old ro,
      REC_N_OLD_EXTRA_BYTES + (if ro.oneByte then ro.ends.length else 2 * ro.ends.length),
      (rec_init_offsets_old ro).any (fun e => e.ext))

/-- Start offset of field `i` relative to the origin: 0 for the first
field, the stored end offset of field `i - 1` otherwise
(`rec_get_nth_field_offs`). -/
def rec_field_start (es : List FieldOffs) (i : Nat) : Nat :=
  match i with
  | 0 => 0
  | j + 1 => (es.getD j foffs0).endOffs

/-- Per-field access through the offsets array
(`rec_get_nth_field` / `rec_get_nth_field_offs`): a field flagged SQL-null
reports `UNIV_SQL_NULL` (here `none`); otherwise the bytes between the
field's start and end offsets. -/
def rec_get_nth_field (es : List FieldOffs) (data : List Nat) (i : Nat) :
    Option (List Nat) :=
  let e := es.getD i foffs0
  if e.sqlNull then none
  else some ((data.take e.endOffs).drop (rec_field_start es i))

/-! ## Index page model

Embedding of the page state operated on by `page0page.cc`.  The page is a
byte frame accessed through fixed accessors; the embedding keeps one field
per header slot of the page header, the directory slot array as a function
from slot number to the stored record offset, and the per-record header
fields `n_owned` and `next` as functions from record offset.  Records are
identified by the page offset of their origin, as in the source. -/

/-- Page frame size (`UNIV_PAGE_SIZE`, default 16 KiB). -/
def UNIV_PAGE_SIZE : Nat := 16384

/-- Size of the fil trailer after the directory (`PAGE_DIR`). -/
def PAGE_DIR : Nat := 8

/-- Size of one directory slot (`PAGE_DIR_SLOT_SIZE`). -/
def PAGE_DIR_SLOT_SIZE : Nat := 2

/-- Maximum number of records a directory slot may own. -/
def PAGE_DIR_SLOT_MAX_N_OWNED : Nat := 8

/-- Minimum number of records an interior directory slot must own. -/
def PAGE_DIR_SLOT_MIN_N_OWNED : Nat := 4

/-- Lowest heap number of a user record (`PAGE_HEAP_NO_USER_LOW`). -/
def PAGE_HEAP_NO_USER_LOW : Nat := 2

/-- Page offset of the origin of the compact infimum record. -/
def PAGE_NEW_INFIMUM : Nat := 99

/-- Page offset of the origin of the compact supremum record. -/
def PAGE_NEW_SUPREMUM : Nat := 112

/-- End offset of the compact supremum record. -/
def PAGE_NEW_SUPREMUM_END : Nat := 120

/-- Page offset of the origin of the redundant infimum record. -/
def PAGE_OLD_INFIMUM : Nat := 101

/-- Page offset of the origin of the redundant supremum record. -/
def PAGE_OLD_SUPREMUM : Nat := 116

/-- End offset of the redundant supremum record. -/
def PAGE_OLD_SUPREMUM_END : Nat := 125

/-- Index page state.  Header fields as named in `page0page.h`
(`n_heap` without its high compact-format bit, which is the `comp` flag;
`free` is `PAGE_FREE`, `garbage` is `PAGE_GARBAGE`, `last_insert` is
`PAGE_LAST_INSERT` with 0 for NULL, `level` is `PAGE_LEVEL`).
`slots i` is the record offset stored in directory slot `i`
(`page_dir_slot_get_rec`), `n_owned r` and `next r` the record header
fields of the record at offset `r` (`rec_get_n_owned_new/old`,
`page_rec_get_next_low`, with 0 for the end of the list).
`modify_clock` is the buffer block's modify clock. -/
structure Page where
  n_dir_slots : Nat
  heap_top : Nat
  n_heap : Nat
  free : Nat
  garbage : Nat
  last_insert : Nat
  n_recs : Nat
  max_trx_id : Nat
  level : Nat
  comp : Bool
  slots : Nat → Nat
  n_owned : Nat → Nat
  next : Nat → Nat
  modify_clock : Nat

/-- Page offset of the infimum record (`page_get_infimum_offset`). -/
def page_get_infimum (p : Page) : Nat :=
  if p.comp then PAGE_NEW_INFIMUM else PAGE_OLD_INFIMUM

/-- Page offset of the supremum record (`page_get_supremum_offset`). -/
def page_get_supremum (p : Page) : Nat :=
  if p.comp then PAGE_NEW_SUPREMUM else PAGE_OLD_SUPREMUM

/-- Embeds `page_is_leaf`: the page level is zero. -/
def page_is_leaf (p : Page) : Bool := p.level = 0

/-- Log records emitted by this core, with their payload bytes
(the spec's `PAGE_CREATE` and `LIST_END_DELETE` / `LIST_START_DELETE`
entries; the `comp` flag distinguishes the `MLOG_COMP_` types).
`mlogWrite8` stands for the `mlog_write_ull` record written by
`page_update_max_trx_id` through `page_set_max_trx_id`. -/
inductive LogRec where
  | pageCreate (comp : Bool) (isRtree : Bool)
  | listEndDelete (comp : Bool) (payload : List Nat)
  | listStartDelete (comp : Bool) (payload : List Nat)
  | mlogWrite8 (value : Nat)
deriving DecidableEq

/-- Embeds `mach_write_to_2`: two big-endian bytes. -/
def mach_write_to_2 (n : Nat) : List Nat :=
  [(n >>> 8) % 256, n % 256]

/-- Walks `k` next-pointer steps from record `r`
(the `for` loop `rec = page_rec_get_next(rec)`). -/
def page_rec_next_iter (p : Page) : Nat → Nat → Nat
  | 0, r => r
  | k + 1, r => page_rec_next_iter p k (p.next r)

/-- Record reached from the infimum by `k` next steps: list position `k`. -/
def page_walk (p : Page) (k : Nat) : Nat :=
  page_rec_next_iter p k (page_get_infimum p)

/-! ### Heap allocation (`page_mem_alloc_heap`, page0page.cc:244-280) -/

/-- Modelled from the spec: `page_get_max_insert_size(page, 1)` is defined
in `page0page.ic`, which is not among the sources here; per the spec the
heap allocator succeeds exactly when "the free region between `heap_top`
and the slot array has ≥ `need` bytes", so this returns the byte count of
the region from `heap_top` up to the start of the directory slot array. -/
def page_get_max_insert_size_1 (p : Page) : Nat :=
  (UNIV_PAGE_SIZE - PAGE_DIR - PAGE_DIR_SLOT_SIZE * p.n_dir_slots) - p.heap_top

/-- Embeds `page_mem_alloc_heap` (page0page.cc:244-280), uncompressed page:
if the available space is at least `need`, returns the old `heap_top` as
the block, the old `n_heap` as the heap number, and the page with
`heap_top` advanced and `n_heap` incremented; otherwise `NULL` (`none`). -/
def page_mem_alloc_heap (p : Page) (need : Nat) : Option (Nat × Nat × Page) :=
  if need ≤ page_get_max_insert_size_1 p then
    some (p.heap_top, p.n_heap,
      { p with heap_top := p.heap_top + need, n_heap := p.n_heap + 1 })
  else none

/-! ### Page creation (page0page.cc:287-535) -/

/-- Embeds `page_create_low` (page0page.cc:347-405): resets the private
page header (which zeroes `max_trx_id` but keeps `PAGE_LEVEL`), installs
the infimum and supremum with one another as list neighbours and
`n_owned = 1`, zeroes the rest of the heap, and installs the two boot
directory slots.  The modify clock is incremented
(`buf_block_modify_clock_inc`). -/
def page_create_low (p : Page) (comp : Bool) : Page :=
  { n_dir_slots := 2
    heap_top := if comp then PAGE_NEW_SUPREMUM_END else PAGE_OLD_SUPREMUM_END
    n_heap := PAGE_HEAP_NO_USER_LOW
    free := 0
    garbage := 0
    last_insert := 0
    n_recs := 0
    max_trx_id := 0
    level := p.level
    comp := comp
    slots := fun i =>
      if i = 0 then (if comp then PAGE_NEW_INFIMUM else PAGE_OLD_INFIMUM)
      else if i = 1 then (if comp then PAGE_NEW_SUPREMUM else PAGE_OLD_SUPREMUM)
      else 0
    n_owned := fun r =>
      if r = (if comp then PAGE_NEW_INFIMUM else PAGE_OLD_INFIMUM) then 1
      else if r = (if comp then PAGE_NEW_SUPREMUM else PAGE_OLD_SUPREMUM) then 1
      else 0
    next := fun r =>
      if r = (if comp then PAGE_NEW_INFIMUM else PAGE_OLD_INFIMUM) then
        (if comp then PAGE_NEW_SUPREMUM else PAGE_OLD_SUPREMUM)
      else 0
    modify_clock := p.modify_clock + 1 }

/-- Embeds `page_create` (page0page.cc:426-438): writes the page-creation
log record and runs `page_create_low`. -/
def page_create (p : Page) (comp : Bool) (is_rtree : Bool) :
    Page × List LogRec :=
  (page_create_low p comp, [LogRec.pageCreate comp is_rtree])

/-- Embeds `page_update_max_trx_id` (page0page.ic wrapper around
`page_set_max_trx_id`, page0page.cc:210-239) for an uncompressed page under
a mini-transaction: sets the field through `mlog_write_ull`, which also
emits an 8-byte-write log record. -/
def page_update_max_trx_id (p : Page) (trx_id : Nat) : Page × List LogRec :=
  ({ p with max_trx_id := trx_id }, [LogRec.mlogWrite8 trx_id])

/-- Embeds `page_create_empty` (page0page.cc:499-535), uncompressed page:
saves `max_trx_id` on a leaf page of a non-temporary secondary (or ibuf)
index, re-creates the page with the same format, and restores a nonzero
saved `max_trx_id`. -/
def page_create_empty (p : Page) (idx : dict_index_t) : Page × List LogRec :=
  let max_trx_id :=
    if idx.sec_or_ibuf && !idx.temporary && page_is_leaf p then p.max_trx_id
    else 0
  let r := page_create p p.comp idx.spatial
  if max_trx_id ≠ 0 then
    let u := page_update_max_trx_id r.1 max_trx_id
    (u.1, r.2 ++ u.2)
  else r

/-! ### Directory slot maintenance (page0page.cc:1383-1585) -/

/-- Embeds `page_dir_add_slot` (page0page.cc:1434-1455): increments
`n_dir_slots` and moves the entries of the slots above `start` up by one
position (the `memmove` over the downward-growing slot array); the entry
now at `start + 1` is left for the caller to fill. -/
def page_dir_add_slot (p : Page) (start : Nat) : Page :=
  let n_slots := p.n_dir_slots
  { p with
    n_dir_slots := n_slots + 1
    slots := fun i =>
      if start + 2 ≤ i ∧ i ≤ n_slots then p.slots (i - 1) else p.slots i }

/-- Embeds `page_dir_split_slot` (page0page.cc:1460-1515): finds the record
halfway through the records owned by slot `slot_no` by walking
`n_owned / 2` steps from the previous slot's record, adds a directory slot
below `slot_no`, points the new slot at that record with
`n_owned / 2` owned records, and leaves the old slot (now at
`slot_no + 1`) with the remaining `n_owned - n_owned / 2`. -/
def page_dir_split_slot (p : Page) (slot_no : Nat) : Page :=
  let n_owned := p.n_owned (p.slots slot_no)
  let rec0 := p.slots (slot_no - 1)
  let rec1 := page_rec_next_iter p (n_owned / 2) rec0
  let p1 := page_dir_add_slot p (slot_no - 1)
  let p2 := { p1 with slots := Function.update p1.slots slot_no rec1 }
  let p3 := { p2 with n_owned := Function.update p2.n_owned rec1 (n_owned / 2) }
  { p3 with
    n_owned := Function.update p3.n_owned (p3.slots (slot_no + 1))
      (n_owned - n_owned / 2) }

/-- Embeds `page_dir_delete_slot` (page0page.cc:1385-1426): zeroes the
deleted owner's `n_owned`, folds its count into the next slot's owner,
shifts the higher slots down by one position, zeroes the freed last entry
and decrements `n_dir_slots`. -/
def page_dir_delete_slot (p : Page) (slot_no : Nat) : Page :=
  let n_slots := p.n_dir_slots
  let n_owned := p.n_owned (p.slots slot_no)
  let p1 := { p with n_owned := Function.update p.n_owned (p.slots slot_no) 0 }
  let p2 := { p1 with
    n_owned := Function.update p1.n_owned (p1.slots (slot_no + 1))
      (n_owned + p1.n_owned (p1.slots (slot_no + 1))) }
  let p3 := { p2 with
    slots := fun i =>
      if slot_no ≤ i ∧ i + 1 ≤ n_slots - 1 then p2.slots (i + 1) else p2.slots i }
  let p4 := { p3 with slots := Function.update p3.slots (n_slots - 1) 0 }
  { p4 with n_dir_slots := n_slots - 1 }

/-- Embeds `page_dir_balance_slot` (page0page.cc:1522-1585): a no-op on the
last slot; otherwise, when the upper neighbour owns more than the minimum,
transfers one record (zero the old owner's count, give the next record
`n_owned + 1`, advance the slot, decrement the upper owner's count), and
otherwise merges by deleting slot `slot_no`. -/
def page_dir_balance_slot (p : Page) (slot_no : Nat) : Page :=
  if slot_no = p.n_dir_slots - 1 then p
  else
    let n_owned := p.n_owned (p.slots slot_no)
    let up_n_owned := p.n_owned (p.slots (slot_no + 1))
    if PAGE_DIR_SLOT_MIN_N_OWNED < up_n_owned then
      let old_rec := p.slots slot_no
      let new_rec := p.next old_rec
      let p1 := { p with n_owned := Function.update p.n_owned old_rec 0 }
      let p2 := { p1 with
        n_owned := Function.update p1.n_owned new_rec (n_owned + 1) }
      let p3 := { p2 with slots := Function.update p2.slots slot_no new_rec }
      { p3 with
        n_owned := Function.update p3.n_owned (p3.slots (slot_no + 1))
          (up_n_owned - 1) }
    else page_dir_delete_slot p slot_no

/-! ### Owner lookup and position functions (page0page.cc:99-162, 1591-1701) -/

/-- Walks next pointers from `r` until a record with nonzero `n_owned`,
counting the steps (the `while (rec_get_n_owned(r) == 0)` loops of
`page_dir_find_owner_slot`, `page_delete_rec_list_end` and
`page_rec_get_n_recs_before`).  `fuel` bounds the walk. -/
def page_owner_walk (p : Page) : Nat → Nat → Nat → Option (Nat × Nat)
  | 0, r, c => if p.n_owned r ≠ 0 then some (r, c) else none
  | fuel + 1, r, c =>
    if p.n_owned r ≠ 0 then some (r, c)
    else page_owner_walk p fuel (p.next r) (c + 1)

/-- Scan of the directory slot array of `page_dir_find_owner_slot`
(page0page.cc:132-159): from slot `j` downward, the first slot whose
stored offset equals `r`; reaching slot 0 without a match is the
corruption error. -/
def page_dir_slot_scan (p : Page) (r : Nat) : Nat → Option Nat
  | 0 => if p.slots 0 = r then some 0 else none
  | j + 1 => if p.slots (j + 1) = r then some (j + 1) else page_dir_slot_scan p r j

/-- Embeds `page_dir_find_owner_slot` (page0page.cc:100-162): walk forward
to the owner record, then scan the slot array from the last slot
downward. -/
def page_dir_find_owner_slot (p : Page) (rec : Nat) (fuel : Nat) : Option Nat :=
  match page_owner_walk p fuel rec 0 with
  | none => none
  | some (r, _) => page_dir_slot_scan p r (p.n_dir_slots - 1)

/-- List walk of `page_rec_get_prev_const`: from `r2` forward until the
record whose next pointer is `target`. -/
def page_rec_prev_walk (p : Page) : Nat → Nat → Nat → Option Nat
  | 0, _, _ => none
  | fuel + 1, r2, target =>
    if p.next r2 = target then some r2
    else page_rec_prev_walk p fuel (p.next r2) target

/-- Modelled from the spec: `page_rec_get_prev` is defined in
`page0page.ic`, which is not among the sources here; per the spec,
"`prev(rec)` walks from the owning slot's predecessor forward", so this
finds the owner slot of `rec` and walks from the previous slot's record
until the record whose next pointer is `rec`. -/
def page_rec_get_prev (p : Page) (rec : Nat) (fuel : Nat) : Option Nat :=
  match page_dir_find_owner_slot p rec fuel with
  | none => none
  | some slot_no =>
    if slot_no = 0 then none
    else page_rec_prev_walk p fuel (p.slots (slot_no - 1)) rec

/-- Embeds the slot-search loop of `page_rec_get_nth_const`
(page0page.cc:1608-1618): scan slots from 0 upward, subtracting each
slot's owned count while it does not exceed the remaining `nth`. -/
def page_nth_slot_search (p : Page) : Nat → Nat → Nat → Option (Nat × Nat)
  | _, _, 0 => none
  | nth, i, fuel + 1 =>
    let n := p.n_owned (p.slots i)
    if nth < n then some (i, nth)
    else page_nth_slot_search p (nth - n) (i + 1) fuel

/-- Embeds `page_rec_get_nth_const` (page0page.cc:1592-1637): record 0 is
the infimum; otherwise find the first slot whose cumulative owned count
exceeds `nth` and walk `nth + 1` next steps from the previous slot's
record (the `do { rec = next } while (nth--)` loop). -/
def page_rec_get_nth_const (p : Page) (nth : Nat) (fuel : Nat) : Option Nat :=
  if nth = 0 then some (page_get_infimum p)
  else
    match page_nth_slot_search p nth 0 fuel with
    | none => none
    | some (i, nth2) => some (page_rec_next_iter p (nth2 + 1) (p.slots (i - 1)))

/-- Slot accumulation loop of `page_rec_get_n_recs_before`
(page0page.cc:1664-1674): from slot `i` upward, add each slot owner's
`n_owned` and stop at the slot pointing at `r`. -/
def page_n_recs_slot_scan (p : Page) (r : Nat) : Nat → Int → Nat → Option Int
  | _, _, 0 => none
  | i, acc, fuel + 1 =>
    let acc2 := acc + (p.n_owned (p.slots i) : Int)
    if p.slots i = r then some acc2
    else page_n_recs_slot_scan p r (i + 1) acc2 fuel

/-- Embeds `page_rec_get_n_recs_before` (page0page.cc:1644-1701): walk
forward to the owner, counting steps negatively, accumulate the owned
counts of the slots up to the owner's slot, subtract one and cast to
`ulint`. -/
def page_rec_get_n_recs_before (p : Page) (rec : Nat) (fuel : Nat) :
    Option Nat :=
  match page_owner_walk p fuel rec 0 with
  | none => none
  | some (r, cnt) =>
    match page_n_recs_slot_scan p r 0 (-(cnt : Int)) fuel with
    | none => none
    | some n => some (n - 1).toNat

/-! ### Bulk delete at the list end (page0page.cc:924-1205) -/

/-- Embeds `page_delete_rec_list_write_log` (page0page.cc:924-944): one log
record of the given type whose 2-byte payload is the page offset of
`rec`. -/
def page_delete_rec_list_write_log (rec : Nat) (comp : Bool) : LogRec :=
  LogRec.listEndDelete comp (mach_write_to_2 rec)

/-- Size-and-count loop of `page_delete_rec_list_end`
(page0page.cc:1122-1145): from `rec` to the supremum, sum the record sizes
(`rec_offs_size` of each record, supplied here as `recSize`) and count the
records. -/
def page_delete_sum_sizes (p : Page) (recSize : Nat → Nat) :
    Nat → Nat → Nat × Nat → Option (Nat × Nat)
  | 0, _, _ => none
  | fuel + 1, r, acc =>
    let acc2 := (acc.1 + recSize r, acc.2 + 1)
    let r2 := p.next r
    if r2 = page_get_supremum p then some acc2
    else page_delete_sum_sizes p recSize fuel r2 acc2

/-- Embeds `page_delete_rec_list_end` (page0page.cc:1008-1205) for an
uncompressed page.  `recovery` embeds `recv_recovery_is_on()`; `recSize r`
stands for `rec_offs_size(rec_get_offsets(r, index, ...))`; `fuel` bounds
the list walks.  Deleting from the supremum is a no-op; outside recovery,
deleting from the infimum, from the first user record, or `n_recs` records
re-creates the page empty; otherwise the tail is cut off: the page header
and directory are updated, the chain is rewired to the supremum and the
removed segment is pushed onto the free list, under a single list-end
deletion log record. -/
def page_delete_rec_list_end (rec : Nat) (p : Page) (idx : dict_index_t)
    (n_recs_arg size_arg : Option Nat) (recovery : Bool)
    (recSize : Nat → Nat) (fuel : Nat) : Option (Page × List LogRec) :=
  if rec = page_get_supremum p then some (p, [])
  else if recovery = false ∧
      (rec = page_get_infimum p ∨ n_recs_arg = some p.n_recs) then
    some (page_create_empty p idx)
  else if recovery = false ∧ p.next (page_get_infimum p) = rec then
    some (page_create_empty p idx)
  else
    let p1 : Page :=
      { p with last_insert := 0, modify_clock := p.modify_clock + 1 }
    let log := page_delete_rec_list_write_log rec p1.comp
    match page_rec_get_prev p1 rec fuel with
    | none => none
    | some prev_rec =>
      match page_rec_get_prev p1 (page_get_supremum p1) fuel with
      | none => none
      | some last_rec =>
        let sz : Option (Nat × Nat) :=
          match size_arg, n_recs_arg with
          | some s, some n => some (s, n)
          | _, _ => page_delete_sum_sizes p1 recSize fuel rec (0, 0)
        match sz with
        | none => none
        | some (size, n_del) =>
          match page_owner_walk p1 fuel rec 0 with
          | none => none
          | some (rec2, count) =>
            let n_owned := p1.n_owned rec2 - count
            match page_dir_find_owner_slot p1 rec2 fuel with
            | none => none
            | some slot_index =>
              let p2 := { p1 with
                slots := Function.update p1.slots slot_index
                  (page_get_supremum p1) }
              let p3 := { p2 with
                n_owned := Function.update p2.n_owned (p2.slots slot_index)
                  n_owned }
              let p4 := { p3 with n_dir_slots := slot_index + 1 }
              let p5 := { p4 with
                next := Function.update p4.next prev_rec
                  (page_get_supremum p4) }
              let p6 := { p5 with
                next := Function.update p5.next last_rec p5.free }
              let p7 := { p6 with free := rec }
              let p8 := { p7 with garbage := p7.garbage + size }
              let p9 := { p8 with n_recs := p8.n_recs - n_del }
              some (p9, [log])

/-! ## Well-formed tuples

A tuple "respects the index descriptor's types, nullability and
external-storage flags" (in the words of the specification) when each
field's value fits the declared column: these are the preconditions the
source checks with `ut_ad` assertions in the converters. -/

/-- One field of a compact-format tuple respects its index field:
a SQL-null value only in a nullable column; an externally stored value
only in a variable-length big column; a fixed-length field holds exactly
`fixed_len` bytes and is not external; a variable-length value fits the
length encoding (`len < 16384` for big columns, `len ≤ col->len ≤ 255`
otherwise). -/
def dfield_respects (ifield : dict_field_t) (f : dfield_t) : Prop :=
  (f.isNull = true → ifield.col.notNull = false) ∧
  (f.ext = true → f.isNull = false ∧ ifield.fixed_len = 0 ∧
    DATA_BIG_COL ifield.col = true) ∧
  (ifield.fixed_len ≠ 0 → f.ext = false ∧
    (f.isNull = false → f.data.length = ifield.fixed_len)) ∧
  (ifield.fixed_len = 0 →
    (DATA_BIG_COL ifield.col = true → f.data.length < 16384) ∧
    (DATA_BIG_COL ifield.col = false → f.data.length ≤ ifield.col.len))

/-- A compact-format tuple respects the index: one value per index field,
each respecting its field descriptor. -/
def dtuple_respects_comp (idx : dict_index_t) (dfields : List dfield_t) : Prop :=
  dfields.length = idx.fields.length ∧
  ∀ pr ∈ List.zip idx.fields dfields, dfield_respects pr.1 pr.2

/-- A redundant-format tuple respects its encoding: `n_ext` counts the
externally stored fields, the data size fits the two-byte offsets
(below the `REC_2BYTE_EXTERN_MASK` flag bit), and null fields carry no
external flag. -/
def dtuple_respects_old (dfields : List dfield_t) (n_ext : Nat) : Prop :=
  n_ext = (dfields.filter (fun f => !f.isNull && f.ext)).length ∧
  dtuple_get_data_size dfields < REC_2BYTE_EXTERN_MASK ∧
  ∀ f ∈ dfields, f.isNull = true → f.ext = false

/-- A tuple respects the index in the record format the index uses. -/
def dtuple_respects (idx : dict_index_t) (dfields : List dfield_t)
    (n_ext : Nat) : Prop :=
  if idx.comp then dtuple_respects_comp idx dfields
  else dtuple_respects_old dfields n_ext

/-- Offsets-array entries a correct decoding must produce for the given
field values, starting at end offset `offs`: a null field keeps the
running offset and raises the SQL-null flag; other fields advance by their
length and carry their external flag. -/
def rec_expected_entries : List (dict_field_t × dfield_t) → Nat → List FieldOffs
  | [], _ => []
  | (_, f) :: rest, offs =>
    if f.isNull then ⟨offs, true, false⟩ :: rec_expected_entries rest offs
    else ⟨offs + f.data.length, false, f.ext⟩ ::
      rec_expected_entries rest (offs + f.data.length)

/-- Whether any non-null field of the pair list is externally stored. -/
def rec_any_ext (prs : List (dict_field_t × dfield_t)) : Bool :=
  prs.any (fun pr => !pr.2.isNull && pr.2.ext)

/-! ## Concrete fixtures used by the witness theorems -/

/-- Test index: an INT NOT NULL fixed(4) key, a big nullable varchar, a
small nullable varchar, and a big nullable column for an external value. -/
def testIndex : dict_index_t :=
  { fields :=
      [⟨⟨4, true⟩, 4⟩, ⟨⟨300, false⟩, 0⟩, ⟨⟨10, false⟩, 0⟩, ⟨⟨4000, false⟩, 0⟩]
    comp := true, sec_or_ibuf := false, temporary := false, spatial := false }

/-- Test tuple for `testIndex`: int 42; a 130-byte value (two-byte length
form); SQL null; an externally stored 20-byte reference. -/
def testTuple : List dfield_t :=
  [⟨false, false, [0, 0, 0, 42], 0⟩,
   ⟨false, false, List.replicate 130 7, 0⟩,
   ⟨true, false, [], 0⟩,
   ⟨false, true,
     [1, 2, 3, 4, 5, 6, 7, 8, 9, 10, 11, 12, 13, 14, 15, 16, 17, 18, 19, 20], 0⟩]

/-- Test page for the directory split: nine user records at offsets
130, 140, …, 210, all owned by slot 1. -/
def testPageSplit : Page :=
  { n_dir_slots := 3, heap_top := 220, n_heap := 11, free := 0, garbage := 0
    last_insert := 0, n_recs := 9, max_trx_id := 0, level := 0, comp := true
    slots := fun i => if i = 0 then 99 else if i = 1 then 210
      else if i = 2 then 112 else 0
    n_owned := fun r => if r = 99 then 1 else if r = 210 then 9
      else if r = 112 then 1 else 0
    next := fun r =>
      if r = 99 then 130
      else if 130 ≤ r ∧ r < 210 ∧ r % 10 = 0 then r + 10
      else if r = 210 then 112 else 0
    modify_clock := 0 }

/-- Test page for the directory balance: slot 1 owns three records
(130, 140, 150), slot 2 owns five (160 … 200). -/
def testPageBalance : Page :=
  { n_dir_slots := 4, heap_top := 220, n_heap := 10, free := 0, garbage := 0
    last_insert := 0, n_recs := 8, max_trx_id := 0, level := 0, comp := true
    slots := fun i => if i = 0 then 99 else if i = 1 then 150
      else if i = 2 then 200 else if i = 3 then 112 else 0
    n_owned := fun r => if r = 99 then 1 else if r = 150 then 3
      else if r = 200 then 5 else if r = 112 then 1 else 0
    next := fun r =>
      if r = 99 then 130
      else if 130 ≤ r ∧ r < 200 ∧ r % 10 = 0 then r + 10
      else if r = 200 then 112 else 0
    modify_clock := 0 }

/-- Test page for the list-end deletion claims: like `testPageSplit`, with
a nonzero `max_trx_id` on a leaf page. -/
def testPageDelete : Page :=
  { testPageSplit with max_trx_id := 77 }

/-- Test secondary non-temporary index for the page-level claims. -/
def testSecIndex : dict_index_t :=
  { fields := [], comp := true, sec_or_ibuf := true, temporary := false
    spatial := false }

/-- Slot-position function of `testPageSplit` as a list-position map for
the nth-record claim: slot 0 at position 0, slot 1 at position 9,
slot 2 (supremum) at position 10. -/
def testPagePos : Nat → Nat :=
  fun i => if i = 0 then 0 else if i = 1 then 9 else if i = 2 then 10 else 0

/-- Start offset of field `i` when decoding begins at end offset `offs`:
`offs` itself for the first field, else the previous expected entry's end
(used to relate `rec_field_start` to the expected entries). -/
def rec_start_at (prs : List (dict_field_t × dfield_t)) (offs : Nat) (i : Nat) :
    Nat :=
  match i with
  | 0 => offs
  | j + 1 => ((rec_expected_entries prs offs).getD j foffs0).endOffs

/-- Offsets-array entries a correct decoding of a redundant record must
produce: a SQL-null field advances the end offset by its
`dtype_get_sql_null_size` and raises the SQL-null flag; other fields
advance by their length and carry their external flag. -/
def rec_expected_entries_old : List dfield_t → Nat → List FieldOffs
  | [], _ => []
  | f :: rest, offs =>
    if f.isNull then
      ⟨offs + f.sql_null_size, true, false⟩ ::
        rec_expected_entries_old rest (offs + f.sql_null_size)
    else
      ⟨offs + f.data.length, false, f.ext⟩ ::
        rec_expected_entries_old rest (offs + f.data.length)

/-- Start offset of redundant field `i` when decoding begins at `offs`. -/
def rec_start_at_old (dfields : List dfield_t) (offs i : Nat) : Nat :=
  match i with
  | 0 => offs
  | j + 1 => ((rec_expected_entries_old dfields offs).getD j foffs0).endOffs

/-- Well-formedness of the tuple of an infimum or supremum record built
through the compact converter: the index has no nullable column and the
single field is the fixed 8-byte sentinel string. -/
def infsup_wf (idx : dict_index_t) (dfields : List dfield_t) : Prop :=
  idx.n_nullable = 0 ∧
  ∃ fld f, idx.fields.head? = some fld ∧ dfields = [f] ∧
    fld.col.notNull = true ∧ fld.fixed_len = 8 ∧ f.isNull = false ∧
    f.ext = false ∧ f.data.length = 8

/-- Well-formedness of a compact tuple for each record status: ordinary
records carry one respecting value per index field; node pointers carry at
least one key field plus the 4-byte child page number; infimum and
supremum carry the fixed 8-byte field. -/
def dtuple_status_wf (idx : dict_index_t) (dfields : List dfield_t) :
    rec_status → Prop
  | .ordinary => dtuple_respects_comp idx dfields
  | .node_ptr => 2 ≤ dfields.length ∧
      dfields.length - 1 ≤ idx.fields.length ∧
      (∀ pr ∈ List.zip idx.fields dfields.dropLast,
        dfield_respects pr.1 pr.2) ∧
      (dfields.getLast?.map (fun f => f.data.length)).getD 0
        = REC_NODE_PTR_SIZE
  | .infimum => infsup_wf idx dfields
  | .supremum => infsup_wf idx dfields

/-- Structural invariants of a page directory, with `pos i` the list
position of the record stored in slot `i` (the properties
`page_validate` checks: slot 0 holds the infimum at position 0 owning
itself, slot positions grow strictly, each slot's owner counts the
records since the previous slot, records between slot positions carry a
zero count, and the list walk reaches each position exactly once). -/
structure PageDirWF (p : Page) (pos : Nat → Nat) : Prop where
  two_slots : 2 ≤ p.n_dir_slots
  pos_zero : pos 0 = 0
  pos_mono : ∀ i, i + 1 < p.n_dir_slots → pos i < pos (i + 1)
  slot_eq : ∀ i, i < p.n_dir_slots → p.slots i = page_walk p (pos i)
  own_inf : p.n_owned (page_walk p 0) = 1
  own_slot : ∀ i, 0 < i → i < p.n_dir_slots →
    p.n_owned (page_walk p (pos i)) = pos i - pos (i - 1)
  own_zero : ∀ k, k ≤ pos (p.n_dir_slots - 1) →
    (∀ i, i < p.n_dir_slots → pos i ≠ k) →
    p.n_owned (page_walk p k) = 0
  walk_inj : ∀ k1 k2, k1 ≤ pos (p.n_dir_slots - 1) →
    k2 ≤ pos (p.n_dir_slots - 1) → page_walk p k1 = page_walk p k2 →
    k1 = k2

/-- Fixture for the length-prefix claim: a big nullable varchar column. -/
def lpfxField : dict_field_t := ⟨⟨300, false⟩, 0⟩

/-- Fixture value for the length-prefix claim: an externally stored
five-byte reference held in a `lpfxField` column. -/
def lpfxVal : dfield_t := ⟨false, true, [1, 2, 3, 4, 5], 0⟩

/-! # Theorems

General `Nat` bit-arithmetic helpers first, then the codec lemmas and the
claims about `rem0rec.cc`, then the page lemmas and the claims about
`page0page.cc`. -/

theorem nat_shiftRight_or (x y k : Nat) :
    (x ||| y) >>> k = (x >>> k) ||| (y >>> k) := by
  apply Nat.eq_of_testBit_eq
  intro i
  simp [Nat.testBit_shiftRight, Nat.testBit_or]

theorem nat_or_high_add (a b k : Nat) (hb : b < 2 ^ k) :
    (a <<< k) ||| b = a * 2 ^ k + b := by
  have h2k : 0 < 2 ^ k := Nat.two_pow_pos k
  have hdiv : ((a <<< k) ||| b) / 2 ^ k = a := by
    have h1 := nat_shiftRight_or (a <<< k) b k
    rw [Nat.shiftRight_eq_div_pow, Nat.shiftRight_eq_div_pow,
      Nat.shiftRight_eq_div_pow, Nat.div_eq_of_lt hb] at h1
    rw [h1, Nat.or_zero, Nat.shiftLeft_eq, Nat.mul_div_cancel _ h2k]
  have hmod : ((a <<< k) ||| b) % 2 ^ k = b := by
    rw [← Nat.and_pow_two_sub_one_eq_mod, Nat.and_comm, Nat.and_or_distrib_left,
      Nat.and_comm _ (a <<< k), Nat.and_comm _ b,
      Nat.and_pow_two_sub_one_eq_mod, Nat.and_pow_two_sub_one_eq_mod,
      Nat.shiftLeft_eq, Nat.mul_mod_left, Nat.mod_eq_of_lt hb]
    simp
  have hdm := Nat.div_add_mod ((a <<< k) ||| b) (2 ^ k)
  rw [hdiv, hmod] at hdm
  rw [← hdm, Nat.mul_comm]

theorem nat_and_two_pow (x k : Nat) :
    x &&& 2 ^ k = if x.testBit k then 2 ^ k else 0 := by
  apply Nat.eq_of_testBit_eq
  intro i
  by_cases h : k = i
  · subst h
    cases hx : x.testBit k <;>
      simp [Nat.testBit_and, Nat.testBit_two_pow_self, hx]
  · cases hx : x.testBit k <;>
      simp [Nat.testBit_and, Nat.testBit_two_pow_of_ne h, hx]

theorem nat_and_two_pow_ne_zero (x k : Nat) :
    x &&& 2 ^ k ≠ 0 ↔ x.testBit k = true := by
  rw [nat_and_two_pow]
  cases hx : x.testBit k <;> simp [hx, (Nat.two_pow_pos k).ne']

theorem nat_testBit_div_mod (x k : Nat) :
    x.testBit k = true ↔ x / 2 ^ k % 2 = 1 := by
  rw [Nat.testBit_to_div_mod]
  simp

theorem nat_testBit_add_high (cur m k j : Nat) (h : k < j) :
    (cur + m * 2 ^ j).testBit k = cur.testBit k := by
  have e2 : 2 ^ j = 2 ^ (j - k - 1) * 2 * 2 ^ k := by
    rw [← Nat.pow_succ, ← Nat.pow_add]
    congr 1
    omega
  have e1 : cur + m * 2 ^ j = cur + (2 * (m * 2 ^ (j - k - 1))) * 2 ^ k := by
    rw [e2]; ring
  rw [Nat.testBit_to_div_mod, Nat.testBit_to_div_mod, e1,
    Nat.add_mul_div_right _ _ (Nat.two_pow_pos k)]
  generalize m * 2 ^ (j - k - 1) = w
  rw [decide_eq_decide]
  omega

theorem nat_testBit_add_self (cur pos : Nat) (b : Bool) (h : cur < 2 ^ pos) :
    (cur + (if b then 2 ^ pos else 0)).testBit pos = b := by
  cases b
  · simpa using Nat.testBit_lt_two_pow h
  · simp only [if_pos trivial]
    rw [Nat.testBit_to_div_mod]
    have e1 : (cur + 2 ^ pos) / 2 ^ pos = 1 := by
      rw [Nat.add_div_right _ (Nat.two_pow_pos pos), Nat.div_eq_of_lt h]
    rw [e1]
    simp

theorem nat_testBit_add_keep (cur pos k : Nat) (b : Bool) (hk : k < pos) :
    (cur + (if b then 2 ^ pos else 0)).testBit k = cur.testBit k := by
  cases b
  · simp
  · simpa using nat_testBit_add_high cur 1 k pos hk

theorem packBitsAux_cons_top (b : Bool) (rest : List Bool) (cur : Nat) :
    packBitsAux (b :: rest) 7 cur =
      (cur + (if b then 2 ^ 7 else 0)) :: packBitsAux rest 0 0 := by
  simp [packBitsAux]

theorem packBitsAux_cons_low (b : Bool) (rest : List Bool) (pos cur : Nat)
    (h : pos ≠ 7) :
    packBitsAux (b :: rest) pos cur =
      packBitsAux rest (pos + 1) (cur + (if b then 2 ^ pos else 0)) := by
  simp [packBitsAux, h]

theorem packBitsAux_length (bs : List Bool) :
    ∀ pos cur, pos ≤ 7 →
      (packBitsAux bs pos cur).length = (pos + bs.length + 7) / 8 := by
  induction bs with
  | nil =>
    intro pos cur h
    by_cases h0 : pos = 0
    · subst h0
      simp [packBitsAux]
    · simp only [packBitsAux, if_neg h0, List.length_cons, List.length_nil]
      omega
  | cons b rest ih =>
    intro pos cur h
    by_cases h7 : pos = 7
    · subst h7
      rw [packBitsAux_cons_top, List.length_cons, ih 0 0 (by omega)]
      simp only [List.length_cons]
      omega
    · rw [packBitsAux_cons_low _ _ _ _ h7, ih (pos + 1) _ (by omega)]
      simp only [List.length_cons]
      omega

theorem packBitsAux_testBit (bs : List Bool) :
    ∀ pos cur k, pos ≤ 7 → cur < 2 ^ pos → k < pos + bs.length →
      nthBitSet (packBitsAux bs pos cur) k =
        (if k < pos then cur.testBit k else bs.getD (k - pos) false) := by
  induction bs with
  | nil =>
    intro pos cur k h hcur hk
    simp only [List.length_nil, Nat.add_zero] at hk
    have hp : ¬pos = 0 := by omega
    have e1 : k / 8 = 0 := Nat.div_eq_of_lt (by omega)
    have e2 : k % 8 = k := Nat.mod_eq_of_lt (by omega)
    simp only [packBitsAux, if_neg hp, nthBitSet, e1, e2, List.getD_cons_zero]
    rw [if_pos hk]
  | cons b rest ih =>
    intro pos cur k h hcur hk
    have hcur2 : cur + (if b then 2 ^ pos else 0) < 2 ^ (pos + 1) := by
      have e : (2 : Nat) ^ (pos + 1) = 2 ^ pos + 2 ^ pos := by
        rw [Nat.pow_succ]; omega
      cases b <;> simp <;> omega
    by_cases h7 : pos = 7
    · subst h7
      rw [packBitsAux_cons_top]
      by_cases hk8 : k < 8
      · have e1 : k / 8 = 0 := Nat.div_eq_of_lt (by omega)
        have e2 : k % 8 = k := Nat.mod_eq_of_lt (by omega)
        simp only [nthBitSet, e1, e2, List.getD_cons_zero]
        by_cases hk7 : k < 7
        · rw [nat_testBit_add_keep cur 7 k b hk7, if_pos hk7]
        · have hke : k = 7 := by omega
          subst hke
          rw [nat_testBit_add_self cur 7 b hcur, if_neg hk7]
          simp
      · have e1 : k / 8 = (k - 8) / 8 + 1 := by omega
        have e2 : k % 8 = (k - 8) % 8 := by omega
        simp only [nthBitSet, e1, e2, List.getD_cons_succ]
        have hrec := ih 0 0 (k - 8) (by omega) (by norm_num) (by
          simp only [List.length_cons] at hk
          omega)
        simp only [nthBitSet] at hrec
        rw [hrec]
        have hknp : ¬k < 7 := by omega
        rw [if_neg (by omega : ¬k - 8 < 0), if_neg hknp]
        have e3 : k - 7 = (k - 8) + 1 := by omega
        rw [e3, List.getD_cons_succ]
        simp
    · rw [packBitsAux_cons_low _ _ _ _ h7]
      have hrec := ih (pos + 1) _ k (by omega) hcur2 (by
        simp only [List.length_cons] at hk
        omega)
      rw [hrec]
      by_cases hkp : k < pos
      · rw [if_pos (by omega : k < pos + 1), if_pos hkp,
          nat_testBit_add_keep cur pos k b hkp]
      · by_cases hke : k = pos
        · subst hke
          rw [if_pos (by omega : k < k + 1), if_neg (by omega : ¬k < k),
            nat_testBit_add_self cur k b hcur]
          simp
        · rw [if_neg (by omega : ¬k < pos + 1), if_neg hkp]
          have e3 : k - pos = (k - pos - 1) + 1 := by omega
          rw [e3, List.getD_cons_succ]
          have e4 : k - (pos + 1) = k - pos - 1 := by omega
          rw [e4]

theorem rec_null_bytes_bit (bits : List Bool) (pad : List Nat) (k : Nat)
    (hk : k < bits.length) :
    nthBitSet (packBits bits ++ pad) k = bits.getD k false := by
  have hlen : (packBits bits).length = (bits.length + 7) / 8 := by
    simpa [packBits] using packBitsAux_length bits 0 0 (by omega)
  have hk8 : k / 8 < (packBits bits).length := by
    rw [hlen]; omega
  have hbase : nthBitSet (packBits bits) k = bits.getD k false := by
    have e := packBitsAux_testBit bits 0 0 k (by omega) (by norm_num)
      (by omega)
    simpa [packBits] using e
  rw [← hbase]
  unfold nthBitSet
  rw [List.getD_append _ _ _ _ hk8]

theorem rec_two_byte_facts (n hi : Nat) (hn : n < 16384) (hhi : hi = 2 ∨ hi = 3) :
    (((n >>> 8) % 256) ||| (hi <<< 6)) = hi * 64 + n / 256 ∧
    ((((((n >>> 8) % 256) ||| (hi <<< 6)) <<< 8) ||| (n % 256))
      = hi * 16384 + n) ∧
    ((((n >>> 8) % 256) ||| (hi <<< 6)) &&& 0x80 ≠ 0) ∧
    ((((((n >>> 8) % 256) ||| (hi <<< 6)) <<< 8) ||| (n % 256)) &&& 0x3fff
      = n) ∧
    (((((((n >>> 8) % 256) ||| (hi <<< 6)) <<< 8) ||| (n % 256)) &&& 0x4000
      ≠ 0) ↔ hi = 3) ∧
    ((((n >>> 8) % 256) ||| (hi <<< 6)).testBit 7 = true) ∧
    ((((n >>> 8) % 256) ||| (hi <<< 6)).testBit 6 = decide (hi = 3)) := by
  have hq : n >>> 8 = n / 256 := by
    rw [Nat.shiftRight_eq_div_pow]
  have hqm : n / 256 % 256 = n / 256 := Nat.mod_eq_of_lt (by omega)
  have hb1 : ((n >>> 8) % 256) ||| (hi <<< 6) = hi * 64 + n / 256 := by
    rw [hq, hqm, Nat.lor_comm, nat_or_high_add hi (n / 256) 6 (by omega)]
    norm_num
  have hb2 : ((((n >>> 8) % 256) ||| (hi <<< 6)) <<< 8) ||| (n % 256)
      = hi * 16384 + n := by
    rw [hb1, nat_or_high_add _ _ 8 (by omega)]
    have hdm := Nat.div_add_mod n 256
    norm_num
    omega
  refine ⟨hb1, hb2, ?_, ?_, ?_, ?_, ?_⟩
  · rw [hb1, show (0x80 : Nat) = 2 ^ 7 by norm_num, nat_and_two_pow_ne_zero,
      nat_testBit_div_mod]
    norm_num
    rcases hhi with h | h <;> subst h <;> omega
  · rw [hb2, show (0x3fff : Nat) = 2 ^ 14 - 1 by norm_num,
      Nat.and_pow_two_sub_one_eq_mod]
    norm_num
    rcases hhi with h | h <;> subst h <;> omega
  · rw [hb2, show (0x4000 : Nat) = 2 ^ 14 by norm_num,
      nat_and_two_pow_ne_zero, nat_testBit_div_mod]
    norm_num
    rcases hhi with h | h <;> subst h <;> omega
  · rw [hb1, nat_testBit_div_mod]
    norm_num
    rcases hhi with h | h <;> subst h <;> omega
  · rcases hhi with h | h <;> subst h
    · have e : (2 * 64 + n / 256).testBit 6 = false := by
        rw [Nat.testBit_to_div_mod]
        simp only [decide_eq_false_iff_not]
        norm_num
        omega
      rw [hb1, e]
      norm_num
    · have e : (3 * 64 + n / 256).testBit 6 = true := by
        rw [nat_testBit_div_mod]
        norm_num
        omega
      rw [hb1, e]
      norm_num

theorem rec_comp_read_len_encode (ifield : dict_field_t) (f : dfield_t)
    (hres : dfield_respects ifield f) (hnn : f.isNull = false)
    (ls : List Nat) (offs : Nat) :
    rec_comp_read_field_len ifield (rec_comp_len_bytes ifield f ++ ls) offs
      = some (⟨offs + f.data.length, false, f.ext⟩, ls) := by
  obtain ⟨h1, h2, h3, h4⟩ := hres
  by_cases hfix : ifield.fixed_len = 0
  · by_cases hext : f.ext = true
    · obtain ⟨-, -, hbig⟩ := h2 hext
      have hlen : f.data.length < 16384 := (h4 hfix).1 hbig
      obtain ⟨-, -, htop, hmask, hextbit, -, -⟩ :=
        rec_two_byte_facts f.data.length 3 hlen (Or.inr rfl)
      rw [show ((3 : Nat) <<< 6) = 0xc0 by decide] at htop hmask hextbit
      have hextflag : (((f.data.length >>> 8) % 256 ||| 0xc0) <<< 8
          ||| f.data.length % 256) &&& 0x4000 ≠ 0 := hextbit.mpr rfl
      simp [rec_comp_len_bytes, rec_comp_read_field_len, dfield_get_len,
        hfix, hext, hbig, htop, hextflag, hmask]
    · have hextf : f.ext = false := by
        cases hx : f.ext
        · rfl
        · exact absurd hx hext
      by_cases hbig : DATA_BIG_COL ifield.col = true
      · have hlen : f.data.length < 16384 := (h4 hfix).1 hbig
        by_cases hsmall : f.data.length < 128
        · have hmod : f.data.length % 256 = f.data.length :=
            Nat.mod_eq_of_lt (by omega)
          have hnotop : f.data.length &&& 0x80 = 0 := by
            rw [show (0x80 : Nat) = 2 ^ 7 by norm_num, nat_and_two_pow,
              Nat.testBit_lt_two_pow (show f.data.length < 2 ^ 7 by omega)]
            simp
          simp [rec_comp_len_bytes, rec_comp_read_field_len, dfield_get_len,
            hfix, hextf, hbig, hsmall, hnotop, hmod]
        · obtain ⟨-, -, htop, hmask, hextbit, -, -⟩ :=
            rec_two_byte_facts f.data.length 2 hlen (Or.inl rfl)
          rw [show ((2 : Nat) <<< 6) = 0x80 by decide] at htop hmask hextbit
          have hnoext : (((f.data.length >>> 8) % 256 ||| 0x80) <<< 8
              ||| f.data.length % 256) &&& 0x4000 = 0 := by
            by_contra hc
            exact absurd (hextbit.mp hc) (by norm_num)
          simp [rec_comp_len_bytes, rec_comp_read_field_len, dfield_get_len,
            hfix, hextf, hbig, hsmall, htop, hnoext, hmask]
      · have hbigf : DATA_BIG_COL ifield.col = false := by
          cases hx : DATA_BIG_COL ifield.col
          · rfl
          · exact absurd hx hbig
        have hle : f.data.length ≤ ifield.col.len := (h4 hfix).2 hbigf
        have h255 : ifield.col.len ≤ 255 := by
          by_contra hc
          have : DATA_BIG_COL ifield.col = true := by
            simp [DATA_BIG_COL]
            omega
          rw [this] at hbigf
          exact absurd hbigf (by norm_num)
        have hmod : f.data.length % 256 = f.data.length :=
          Nat.mod_eq_of_lt (by omega)
        simp [rec_comp_len_bytes, rec_comp_read_field_len, dfield_get_len,
          hfix, hextf, hbigf, hmod]
  · obtain ⟨hextf, hlenf⟩ := h3 hfix
    simp [rec_comp_len_bytes, rec_comp_read_field_len, hfix, hextf,
      hlenf hnn]

theorem rec_decode_encode_fields (prs : List (dict_field_t × dfield_t)) :
    ∀ (nulls : List Nat) (bitIdx offs : Nat) (lensR : List Nat),
      (∀ pr ∈ prs, dfield_respects pr.1 pr.2) →
      (∀ j, j < (rec_convert_comp_fields prs).1.length →
        nthBitSet nulls (bitIdx + j)
          = (rec_convert_comp_fields prs).1.getD j false) →
      rec_init_offsets_comp_fields nulls (prs.map Prod.fst)
          ((rec_convert_comp_fields prs).2.1 ++ lensR) bitIdx offs
        = some (rec_expected_entries prs offs, lensR, rec_any_ext prs) := by
  induction prs with
  | nil =>
    intro nulls bitIdx offs lensR hres hbits
    simp [rec_convert_comp_fields, rec_init_offsets_comp_fields,
      rec_expected_entries, rec_any_ext]
  | cons pr rest ih =>
    obtain ⟨ifield, f⟩ := pr
    intro nulls bitIdx offs lensR hres hbits
    have hresf : dfield_respects ifield f := hres (ifield, f) (by simp)
    have hresrest : ∀ pr ∈ rest, dfield_respects pr.1 pr.2 := by
      intro pr h
      exact hres pr (by simp [h])
    by_cases hnul : ifield.col.notNull = false
    · by_cases hnull : f.isNull = true
      · -- SQL-null field: null bit set, nothing else stored
        have henc : rec_convert_comp_fields ((ifield, f) :: rest)
            = (true :: (rec_convert_comp_fields rest).1,
               (rec_convert_comp_fields rest).2.1,
               (rec_convert_comp_fields rest).2.2) := by
          simp [rec_convert_comp_fields, hnul, hnull]
        have hbit0 : nthBitSet nulls bitIdx = true := by
          have h0 := hbits 0 (by rw [henc]; simp)
          rw [henc] at h0
          simpa using h0
        have hrec := ih nulls (bitIdx + 1) offs lensR hresrest (by
          intro j hj
          have hj2 := hbits (j + 1) (by rw [henc]; simp; omega)
          rw [henc] at hj2
          simp only [List.getD_cons_succ] at hj2
          rw [← hj2]
          congr 1
          omega)
        rw [henc]
        simp only [List.map_cons]
        simp [rec_init_offsets_comp_fields, hnul, hbit0]
        rw [hrec]
        simp [rec_expected_entries, rec_any_ext, hnull]
      · -- nullable field with a value: null bit clear, then the value
        have hnn : f.isNull = false := by
          cases hx : f.isNull
          · rfl
          · exact absurd hx hnull
        have henc : rec_convert_comp_fields ((ifield, f) :: rest)
            = (false :: (rec_convert_comp_fields rest).1,
               rec_comp_len_bytes ifield f ++ (rec_convert_comp_fields rest).2.1,
               f.data ++ (rec_convert_comp_fields rest).2.2) := by
          simp [rec_convert_comp_fields, hnul, hnn]
        have hbit0 : nthBitSet nulls bitIdx = false := by
          have h0 := hbits 0 (by rw [henc]; simp)
          rw [henc] at h0
          simpa using h0
        have hrec := ih nulls (bitIdx + 1) (offs + f.data.length) lensR
          hresrest (by
            intro j hj
            have hj2 := hbits (j + 1) (by rw [henc]; simp; omega)
            rw [henc] at hj2
            simp only [List.getD_cons_succ] at hj2
            rw [← hj2]
            congr 1
            omega)
        rw [henc]
        simp only [List.map_cons]
        simp [rec_init_offsets_comp_fields, hnul, hbit0]
        rw [rec_comp_read_len_encode ifield f hresf hnn _ offs]
        simp [hrec, rec_expected_entries, rec_any_ext, hnn, Bool.or_comm]
    · -- NOT NULL field: no null bit
      have hnulT : ifield.col.notNull = true := by
        cases hx : ifield.col.notNull
        · exact absurd hx hnul
        · rfl
      have hnn : f.isNull = false := by
        cases hx : f.isNull
        · rfl
        · exact absurd (hresf.1 hx) (by rw [hnulT]; norm_num)
      have henc : rec_convert_comp_fields ((ifield, f) :: rest)
          = ((rec_convert_comp_fields rest).1,
             rec_comp_len_bytes ifield f ++ (rec_convert_comp_fields rest).2.1,
             f.data ++ (rec_convert_comp_fields rest).2.2) := by
        simp [rec_convert_comp_fields, hnulT]
      have hrec := ih nulls bitIdx (offs + f.data.length) lensR hresrest (by
        intro j hj
        have hj2 := hbits j (by rw [henc]; simpa using hj)
        rw [henc] at hj2
        exact hj2)
      rw [henc]
      simp only [List.map_cons]
      simp [rec_init_offsets_comp_fields, hnulT]
      rw [rec_comp_read_len_encode ifield f hresf hnn _ offs]
      simp [hrec, rec_expected_entries, rec_any_ext, hnn, Bool.or_comm]

theorem rec_expected_entries_length (prs : List (dict_field_t × dfield_t)) :
    ∀ offs, (rec_expected_entries prs offs).length = prs.length := by
  induction prs with
  | nil =>
    intro offs
    simp [rec_expected_entries]
  | cons pr rest ih =>
    intro offs
    obtain ⟨g, f⟩ := pr
    cases hn : f.isNull <;> simp [rec_expected_entries, hn, ih]

theorem rec_expected_entries_getD (prs : List (dict_field_t × dfield_t)) :
    ∀ offs i, i < prs.length →
      ((rec_expected_entries prs offs).getD i foffs0).sqlNull
          = (prs.getD i dpair0).2.isNull ∧
      ((rec_expected_entries prs offs).getD i foffs0).ext
          = (!(prs.getD i dpair0).2.isNull && (prs.getD i dpair0).2.ext) := by
  induction prs with
  | nil =>
    intro offs i h
    simp at h
  | cons pr rest ih =>
    intro offs i h
    obtain ⟨g, f⟩ := pr
    cases i with
    | zero =>
      cases hn : f.isNull <;> simp [rec_expected_entries, hn]
    | succ j =>
      have hj : j < rest.length := by simpa using h
      cases hn : f.isNull <;>
        simpa [rec_expected_entries, hn] using ih _ j hj

theorem rec_start_at_cons (g : dict_field_t) (f : dfield_t)
    (rest : List (dict_field_t × dfield_t)) (offs j : Nat) :
    rec_start_at ((g, f) :: rest) offs (j + 1)
      = rec_start_at rest (if f.isNull then offs else offs + f.data.length) j := by
  cases j with
  | zero => cases hn : f.isNull <;> simp [rec_start_at, rec_expected_entries, hn]
  | succ k => cases hn : f.isNull <;> simp [rec_start_at, rec_expected_entries, hn]

theorem rec_expected_slice (prs : List (dict_field_t × dfield_t)) :
    ∀ (offs : Nat) (pre : List Nat), pre.length = offs →
      (∀ pr ∈ prs, pr.2.isNull = true → pr.1.col.notNull = false) →
      ∀ i, i < prs.length → (prs.getD i dpair0).2.isNull = false →
        ((pre ++ (rec_convert_comp_fields prs).2.2).take
            ((rec_expected_entries prs offs).getD i foffs0).endOffs).drop
          (rec_start_at prs offs i) = (prs.getD i dpair0).2.data := by
  induction prs with
  | nil =>
    intro offs pre hpre hwf i hi hnn
    simp at hi
  | cons pr rest ih =>
    intro offs pre hpre hwf i hi hnn
    obtain ⟨g, f⟩ := pr
    have hwfrest : ∀ pr ∈ rest, pr.2.isNull = true → pr.1.col.notNull = false := by
      intro pr h
      exact hwf pr (by simp [h])
    cases i with
    | zero =>
      have hnn0 : f.isNull = false := by simpa using hnn
      have hdata : (rec_convert_comp_fields ((g, f) :: rest)).2.2
          = f.data ++ (rec_convert_comp_fields rest).2.2 := by
        cases hg : g.col.notNull <;>
          simp [rec_convert_comp_fields, hg, hnn0]
      rw [hdata]
      simp only [rec_expected_entries, hnn0, Bool.false_eq_true, if_false,
        List.getD_cons_zero]
      show ((pre ++ (f.data ++ (rec_convert_comp_fields rest).2.2)).take
          (offs + f.data.length)).drop offs = _
      rw [← List.append_assoc,
        List.take_left' (by simp [hpre] :
          (pre ++ f.data).length = offs + f.data.length),
        List.drop_left' hpre]
    | succ j =>
      have hj : j < rest.length := by simpa using hi
      have hnnj : (rest.getD j dpair0).2.isNull = false := by simpa using hnn
      cases hn : f.isNull with
      | true =>
        have hg : g.col.notNull = false := hwf (g, f) (by simp) hn
        have hdata : (rec_convert_comp_fields ((g, f) :: rest)).2.2
            = (rec_convert_comp_fields rest).2.2 := by
          simp [rec_convert_comp_fields, hg, hn]
        have hent : (rec_expected_entries ((g, f) :: rest) offs).getD (j + 1)
            foffs0 = (rec_expected_entries rest offs).getD j foffs0 := by
          simp [rec_expected_entries, hn]
        rw [hdata, hent, rec_start_at_cons]
        simp only [hn, if_true]
        have := ih offs pre hpre hwfrest j hj hnnj
        simpa using this
      | false =>
        have hdata : (rec_convert_comp_fields ((g, f) :: rest)).2.2
            = f.data ++ (rec_convert_comp_fields rest).2.2 := by
          cases hg : g.col.notNull <;>
            simp [rec_convert_comp_fields, hg, hn]
        have hent : (rec_expected_entries ((g, f) :: rest) offs).getD (j + 1)
            foffs0
            = (rec_expected_entries rest (offs + f.data.length)).getD j
              foffs0 := by
          simp [rec_expected_entries, hn]
        rw [hdata, hent, rec_start_at_cons]
        simp only [hn, Bool.false_eq_true, if_false]
        rw [← List.append_assoc]
        have := ih (offs + f.data.length) (pre ++ f.data)
          (by simp [hpre]) hwfrest j hj hnnj
        simpa using this

theorem rec_comp_decode_encode (idx : dict_index_t) (dfields : List dfield_t)
    (hlen : dfields.length = idx.fields.length)
    (hres : ∀ pr ∈ List.zip idx.fields dfields, dfield_respects pr.1 pr.2) :
    rec_init_offsets_comp_ordinary idx
        (rec_convert_dtuple_to_rec_comp idx dfields .ordinary)
      = some (rec_expected_entries (List.zip idx.fields dfields) 0,
          REC_N_NEW_EXTRA_BYTES + UT_BITS_IN_BYTES idx.n_nullable
            + (rec_convert_dtuple_to_rec_comp idx dfields .ordinary).lens.length,
          rec_any_ext (List.zip idx.fields dfields)) := by
  have hfields : (List.zip idx.fields dfields).map Prod.fst = idx.fields :=
    List.map_fst_zip _ _ (by omega)
  have hloop := rec_decode_encode_fields (List.zip idx.fields dfields)
    (rec_comp_null_bytes idx dfields.length
      (rec_convert_comp_fields (List.zip idx.fields dfields)).1)
    0 0 [] hres (by
      intro j hj
      by_cases h0 : dfields.length = 0
      · exact absurd hj (by
          have : idx.fields = [] := by
            cases hf : idx.fields
            · rfl
            · rw [hf] at hlen
              simp at hlen
              omega
          simp [this, rec_convert_comp_fields])
      · rw [rec_comp_null_bytes, if_neg h0]
        rw [Nat.zero_add]
        exact rec_null_bytes_bit _ _ j hj)
  rw [hfields] at hloop
  rw [List.append_nil] at hloop
  show rec_init_offsets_comp_ordinary idx
      ⟨rec_comp_null_bytes idx dfields.length
        (rec_convert_comp_fields (List.zip idx.fields dfields)).1,
       (rec_convert_comp_fields (List.zip idx.fields dfields)).2.1,
       (rec_convert_comp_fields (List.zip idx.fields dfields)).2.2⟩ = _
  rw [rec_init_offsets_comp_ordinary]
  simp only [hloop]
  simp [rec_convert_dtuple_to_rec_comp]

theorem nat_or_two_pow_add (e2 k : Nat) (h : e2 < 2 ^ k) :
    e2 ||| 2 ^ k = 2 ^ k + e2 := by
  rw [Nat.lor_comm, show (2 : Nat) ^ k = 1 <<< k by simp [Nat.shiftLeft_eq],
    nat_or_high_add 1 e2 k h]
  simp [Nat.shiftLeft_eq]

theorem nat_testBit_of_add_two_pow (e2 k : Nat) (h : e2 < 2 ^ k) :
    (2 ^ k + e2).testBit k = true := by
  rw [nat_testBit_div_mod]
  rw [Nat.add_comm, Nat.add_div_right _ (Nat.two_pow_pos k),
    Nat.div_eq_of_lt h]

theorem nat_strip_two_pow (e2 k : Nat) (h : e2 < 2 ^ k) :
    (2 ^ k + e2) &&& (2 ^ k - 1) = e2 := by
  rw [Nat.and_pow_two_sub_one_eq_mod, Nat.add_comm, Nat.add_mod_right,
    Nat.mod_eq_of_lt h]

theorem nat_and_two_pow_zero_of_lt (e2 k : Nat) (h : e2 < 2 ^ k) :
    e2 &&& 2 ^ k = 0 := by
  rw [nat_and_two_pow, Nat.testBit_lt_two_pow h]
  simp

theorem nat_clear_bit14 (e2 : Nat) (h : e2 < 16384) :
    (16384 + e2) &&& 0xbfff = e2 := by
  apply Nat.eq_of_testBit_eq
  intro i
  rw [Nat.testBit_and,
    show (0xbfff : Nat) = (2 ^ 14 - 1) ||| (1 <<< 15) by decide,
    Nat.testBit_or, Nat.testBit_two_pow_sub_one,
    show (1 : Nat) <<< 15 = 2 ^ 15 by decide, Nat.testBit_two_pow]
  have hsum : 16384 + e2 = e2 + 1 * 2 ^ 14 := by norm_num; omega
  by_cases h14 : i < 14
  · rw [hsum, nat_testBit_add_high e2 1 i 14 h14]
    simp [h14, show (15 : Nat) ≠ i by omega]
  · by_cases h15 : i < 16
    · have hbig : 16384 + e2 < 2 ^ 15 := by norm_num; omega
      have he2 : e2 < 2 ^ i := by
        have : (2 : Nat) ^ 14 ≤ 2 ^ i := Nat.pow_le_pow_right (by norm_num)
          (by omega)
        omega
      by_cases hi : i = 14
      · subst hi
        rw [Nat.testBit_lt_two_pow he2]
        simp
      · have hi15 : i = 15 := by omega
        subst hi15
        rw [Nat.testBit_lt_two_pow hbig, Nat.testBit_lt_two_pow he2]
        simp
    · have hbig : 16384 + e2 < 2 ^ i := by
        have : (2 : Nat) ^ 16 ≤ 2 ^ i := Nat.pow_le_pow_right (by norm_num)
          (by omega)
        have : (16384 : Nat) + e2 < 2 ^ 16 := by norm_num; omega
        omega
      have he2 : e2 < 2 ^ i := by omega
      rw [Nat.testBit_lt_two_pow hbig, Nat.testBit_lt_two_pow he2]
      simp

theorem rec_old_entry_1byte_null (e2 : Nat) (h : e2 ≤ 127) :
    rec_init_offsets_old_entry true (e2 ||| REC_1BYTE_SQL_NULL_MASK)
      = ⟨e2, true, false⟩ := by
  have hor : e2 ||| REC_1BYTE_SQL_NULL_MASK = 128 + e2 := by
    rw [REC_1BYTE_SQL_NULL_MASK, show (0x80 : Nat) = 2 ^ 7 by norm_num,
      nat_or_two_pow_add e2 7 (by omega)]
  have hne : (128 + e2) &&& REC_1BYTE_SQL_NULL_MASK ≠ 0 := by
    rw [REC_1BYTE_SQL_NULL_MASK, show (0x80 : Nat) = 2 ^ 7 by norm_num,
      nat_and_two_pow_ne_zero]
    exact nat_testBit_of_add_two_pow e2 7 (by norm_num; omega)
  have hstrip : (128 + e2) &&& 0x7f = e2 := by
    have := nat_strip_two_pow e2 7 (by norm_num; omega)
    norm_num at this ⊢
    exact this
  rw [hor]
  simp [rec_init_offsets_old_entry, hne, hstrip]

theorem rec_old_entry_1byte_val (e2 : Nat) (h : e2 ≤ 127) :
    rec_init_offsets_old_entry true e2 = ⟨e2, false, false⟩ := by
  have hz : e2 &&& REC_1BYTE_SQL_NULL_MASK = 0 := by
    rw [REC_1BYTE_SQL_NULL_MASK, show (0x80 : Nat) = 2 ^ 7 by norm_num]
    exact nat_and_two_pow_zero_of_lt e2 7 (by norm_num; omega)
  simp [rec_init_offsets_old_entry, hz]

theorem rec_old_entry_2byte_null (e2 : Nat) (h : e2 < 16384) :
    rec_init_offsets_old_entry false (e2 ||| REC_2BYTE_SQL_NULL_MASK)
      = ⟨e2, true, false⟩ := by
  have hor : e2 ||| REC_2BYTE_SQL_NULL_MASK = 32768 + e2 := by
    rw [REC_2BYTE_SQL_NULL_MASK, show (0x8000 : Nat) = 2 ^ 15 by norm_num,
      nat_or_two_pow_add e2 15 (by norm_num; omega)]
  have hne : (32768 + e2) &&& REC_2BYTE_SQL_NULL_MASK ≠ 0 := by
    rw [REC_2BYTE_SQL_NULL_MASK, show (0x8000 : Nat) = 2 ^ 15 by norm_num,
      nat_and_two_pow_ne_zero]
    exact nat_testBit_of_add_two_pow e2 15 (by norm_num; omega)
  have hstrip : (32768 + e2) &&& 0x7fff = e2 := by
    have := nat_strip_two_pow e2 15 (by norm_num; omega)
    norm_num at this ⊢
    exact this
  have hnoext : e2 &&& REC_2BYTE_EXTERN_MASK = 0 := by
    rw [REC_2BYTE_EXTERN_MASK, show (0x4000 : Nat) = 2 ^ 14 by norm_num]
    exact nat_and_two_pow_zero_of_lt e2 14 (by norm_num; omega)
  simp [rec_init_offsets_old_entry, hor, hne, hstrip, hnoext]

theorem rec_old_entry_2byte_ext (e2 : Nat) (h : e2 < 16384) :
    rec_init_offsets_old_entry false (e2 ||| REC_2BYTE_EXTERN_MASK)
      = ⟨e2, false, true⟩ := by
  have hor : e2 ||| REC_2BYTE_EXTERN_MASK = 16384 + e2 := by
    rw [REC_2BYTE_EXTERN_MASK, show (0x4000 : Nat) = 2 ^ 14 by norm_num,
      nat_or_two_pow_add e2 14 (by norm_num; omega)]
  have hnonull : (16384 + e2) &&& REC_2BYTE_SQL_NULL_MASK = 0 := by
    rw [REC_2BYTE_SQL_NULL_MASK, show (0x8000 : Nat) = 2 ^ 15 by norm_num]
    exact nat_and_two_pow_zero_of_lt _ 15 (by norm_num; omega)
  have hext : (16384 + e2) &&& REC_2BYTE_EXTERN_MASK ≠ 0 := by
    rw [REC_2BYTE_EXTERN_MASK, show (0x4000 : Nat) = 2 ^ 14 by norm_num,
      nat_and_two_pow_ne_zero]
    exact nat_testBit_of_add_two_pow e2 14 (by norm_num; omega)
  have hstrip : (16384 + e2) &&& 0xbfff = e2 := nat_clear_bit14 e2 h
  simp [rec_init_offsets_old_entry, hor, hnonull, hext, hstrip]

theorem rec_old_entry_2byte_val (e2 : Nat) (h : e2 < 16384) :
    rec_init_offsets_old_entry false e2 = ⟨e2, false, false⟩ := by
  have hnonull : e2 &&& REC_2BYTE_SQL_NULL_MASK = 0 := by
    rw [REC_2BYTE_SQL_NULL_MASK, show (0x8000 : Nat) = 2 ^ 15 by norm_num]
    exact nat_and_two_pow_zero_of_lt e2 15 (by norm_num; omega)
  have hnoext : e2 &&& REC_2BYTE_EXTERN_MASK = 0 := by
    rw [REC_2BYTE_EXTERN_MASK, show (0x4000 : Nat) = 2 ^ 14 by norm_num]
    exact nat_and_two_pow_zero_of_lt e2 14 (by norm_num; omega)
  simp [rec_init_offsets_old_entry, hnonull, hnoext]

theorem dtuple_get_data_size_cons (f : dfield_t) (rest : List dfield_t) :
    dtuple_get_data_size (f :: rest)
      = (if f.isNull then f.sql_null_size else f.data.length)
        + dtuple_get_data_size rest := by
  cases hn : f.isNull <;> simp [dtuple_get_data_size, dfield_get_len, hn]

theorem rec_old_decode_encode (dfields : List dfield_t) :
    ∀ (oneByte : Bool) (end0 : Nat),
      (∀ f ∈ dfields, f.isNull = true → f.ext = false) →
      (oneByte = true → (∀ f ∈ dfields, f.ext = false) ∧
        end0 + dtuple_get_data_size dfields ≤ 127) →
      (oneByte = false → end0 + dtuple_get_data_size dfields < 16384) →
      ((rec_convert_old_fields oneByte dfields end0).1).map
          (rec_init_offsets_old_entry oneByte)
        = rec_expected_entries_old dfields end0 := by
  induction dfields with
  | nil =>
    intro oneByte end0 hwf hone htwo
    simp [rec_convert_old_fields, rec_expected_entries_old]
  | cons f rest ih =>
    intro oneByte end0 hwf hone htwo
    have hwfrest : ∀ g ∈ rest, g.isNull = true → g.ext = false := by
      intro g hg
      exact hwf g (by simp [hg])
    rw [dtuple_get_data_size_cons] at hone htwo
    cases hn : f.isNull with
    | true =>
      rw [show (if f.isNull then f.sql_null_size else f.data.length)
          = f.sql_null_size by simp [hn]] at hone htwo
      cases oneByte with
      | true =>
        obtain ⟨hextall, hbound⟩ := hone rfl
        simp only [rec_convert_old_fields, hn, if_true, List.map_cons]
        rw [rec_old_entry_1byte_null _ (by omega),
          ih true (end0 + f.sql_null_size) hwfrest
            (fun _ => ⟨fun g hg => hextall g (by simp [hg]), by omega⟩)
            (fun hc => by simp at hc)]
        simp [rec_expected_entries_old, hn]
      | false =>
        have hbound := htwo rfl
        simp only [rec_convert_old_fields, hn, if_true, List.map_cons,
          Bool.false_eq_true, if_false]
        rw [rec_old_entry_2byte_null _ (by omega),
          ih false (end0 + f.sql_null_size) hwfrest
            (fun hc => by simp at hc) (fun _ => by omega)]
        simp [rec_expected_entries_old, hn]
    | false =>
      rw [show (if f.isNull then f.sql_null_size else f.data.length)
          = f.data.length by simp [hn]] at hone htwo
      cases oneByte with
      | true =>
        obtain ⟨hextall, hbound⟩ := hone rfl
        have hextf : f.ext = false := hextall f (by simp)
        simp only [rec_convert_old_fields, hn, Bool.false_eq_true, if_false,
          List.map_cons, dfield_get_len, if_true]
        rw [rec_old_entry_1byte_val _ (by omega),
          ih true (end0 + f.data.length) hwfrest
            (fun _ => ⟨fun g hg => hextall g (by simp [hg]), by omega⟩)
            (fun hc => by simp at hc)]
        simp [rec_expected_entries_old, hn, hextf]
      | false =>
        have hbound := htwo rfl
        simp only [rec_convert_old_fields, hn, Bool.false_eq_true, if_false,
          List.map_cons, dfield_get_len]
        cases hx : f.ext with
        | true =>
          simp only [hx, if_true]
          rw [rec_old_entry_2byte_ext _ (by omega),
            ih false (end0 + f.data.length) hwfrest
              (fun hc => by simp at hc) (fun _ => by omega)]
          simp [rec_expected_entries_old, hn, hx]
        | false =>
          simp only [hx, Bool.false_eq_true, if_false]
          rw [rec_old_entry_2byte_val _ (by omega),
            ih false (end0 + f.data.length) hwfrest
              (fun hc => by simp at hc) (fun _ => by omega)]
          simp [rec_expected_entries_old, hn, hx]

theorem rec_expected_old_length (dfields : List dfield_t) :
    ∀ offs, (rec_expected_entries_old dfields offs).length = dfields.length := by
  induction dfields with
  | nil =>
    intro offs
    simp [rec_expected_entries_old]
  | cons f rest ih =>
    intro offs
    cases hn : f.isNull <;> simp [rec_expected_entries_old, hn, ih]

theorem rec_expected_old_getD (dfields : List dfield_t) :
    ∀ offs i, i < dfields.length →
      ((rec_expected_entries_old dfields offs).getD i foffs0).sqlNull
          = (dfields.getD i dfield0).isNull ∧
      ((rec_expected_entries_old dfields offs).getD i foffs0).ext
          = (!(dfields.getD i dfield0).isNull && (dfields.getD i dfield0).ext) := by
  induction dfields with
  | nil =>
    intro offs i h
    simp at h
  | cons f rest ih =>
    intro offs i h
    cases i with
    | zero =>
      cases hn : f.isNull <;> simp [rec_expected_entries_old, hn]
    | succ j =>
      have hj : j < rest.length := by simpa using h
      cases hn : f.isNull <;>
        simpa [rec_expected_entries_old, hn] using ih _ j hj

theorem rec_start_at_old_cons (f : dfield_t) (rest : List dfield_t)
    (offs j : Nat) :
    rec_start_at_old (f :: rest) offs (j + 1)
      = rec_start_at_old rest
          (if f.isNull then offs + f.sql_null_size else offs + f.data.length)
          j := by
  cases j with
  | zero =>
    cases hn : f.isNull <;>
      simp [rec_start_at_old, rec_expected_entries_old, hn]
  | succ k =>
    cases hn : f.isNull <;>
      simp [rec_start_at_old, rec_expected_entries_old, hn]

theorem rec_old_slice (dfields : List dfield_t) :
    ∀ (oneByte : Bool) (offs : Nat) (pre : List Nat), pre.length = offs →
      ∀ i, i < dfields.length → (dfields.getD i dfield0).isNull = false →
        ((pre ++ (rec_convert_old_fields oneByte dfields offs).2).take
            ((rec_expected_entries_old dfields offs).getD i foffs0).endOffs).drop
          (rec_start_at_old dfields offs i) = (dfields.getD i dfield0).data := by
  induction dfields with
  | nil =>
    intro oneByte offs pre hpre i hi hnn
    simp at hi
  | cons f rest ih =>
    intro oneByte offs pre hpre i hi hnn
    cases i with
    | zero =>
      have hnn0 : f.isNull = false := by simpa using hnn
      have hdata : (rec_convert_old_fields oneByte (f :: rest) offs).2
          = f.data ++ (rec_convert_old_fields oneByte rest
              (offs + f.data.length)).2 := by
        simp [rec_convert_old_fields, hnn0, dfield_get_len]
      rw [hdata]
      simp only [rec_expected_entries_old, hnn0, Bool.false_eq_true, if_false,
        List.getD_cons_zero]
      show ((pre ++ (f.data ++ _)).take (offs + f.data.length)).drop offs = _
      rw [← List.append_assoc,
        List.take_left' (by simp [hpre] :
          (pre ++ f.data).length = offs + f.data.length),
        List.drop_left' hpre]
    | succ j =>
      have hj : j < rest.length := by simpa using hi
      have hnnj : (rest.getD j dfield0).isNull = false := by simpa using hnn
      cases hn : f.isNull with
      | true =>
        have hdata : (rec_convert_old_fields oneByte (f :: rest) offs).2
            = List.replicate f.sql_null_size 0
              ++ (rec_convert_old_fields oneByte rest
                  (offs + f.sql_null_size)).2 := by
          simp [rec_convert_old_fields, hn]
        have hent : (rec_expected_entries_old (f :: rest) offs).getD (j + 1)
            foffs0
            = (rec_expected_entries_old rest (offs + f.sql_null_size)).getD j
              foffs0 := by
          simp [rec_expected_entries_old, hn]
        rw [hdata, hent, rec_start_at_old_cons]
        simp only [hn, if_true]
        rw [← List.append_assoc]
        have := ih oneByte (offs + f.sql_null_size)
          (pre ++ List.replicate f.sql_null_size 0) (by simp [hpre]) j hj hnnj
        simpa using this
      | false =>
        have hdata : (rec_convert_old_fields oneByte (f :: rest) offs).2
            = f.data ++ (rec_convert_old_fields oneByte rest
                (offs + f.data.length)).2 := by
          simp [rec_convert_old_fields, hn, dfield_get_len]
        have hent : (rec_expected_entries_old (f :: rest) offs).getD (j + 1)
            foffs0
            = (rec_expected_entries_old rest (offs + f.data.length)).getD j
              foffs0 := by
          simp [rec_expected_entries_old, hn]
        rw [hdata, hent, rec_start_at_old_cons]
        simp only [hn, Bool.false_eq_true, if_false]
        rw [← List.append_assoc]
        have := ih oneByte (offs + f.data.length) (pre ++ f.data)
          (by simp [hpre]) j hj hnnj
        simpa using this

theorem zip_getD_snd (l1 : List dict_field_t) (l2 : List dfield_t) (i : Nat)
    (h1 : i < l1.length) (h2 : i < l2.length) :
    ((List.zip l1 l2).getD i dpair0).2 = l2.getD i dfield0 := by
  have hz : i < (List.zip l1 l2).length := by
    rw [List.length_zip]
    omega
  rw [List.getD_eq_getElem _ _ hz, List.getD_eq_getElem _ _ h2,
    List.getElem_zip]

/-- Claim C1 — codec round trip: for every data tuple whose fields respect
the index descriptor's types, nullability and external-storage flags,
building a physical record with `rec_convert_dtuple_to_rec` and reading it
back through `rec_get_offsets` and per-field access yields the original
tuple: every non-null field's bytes and length are unchanged, every
SQL-null field is reported as null, and every externally stored field is
reported with the EXTERNAL flag set. -/
theorem rec_codec_roundtrip (idx : dict_index_t) (dfields : List dfield_t)
    (n_ext : Nat) (hres : dtuple_respects idx dfields n_ext) :
    ∃ es extra anyExt,
      rec_get_offsets idx
          (rec_convert_dtuple_to_rec idx dfields .ordinary n_ext)
        = some (es, extra, anyExt) ∧
      es.length = dfields.length ∧
      ∀ i, i < dfields.length →
        ((dfields.getD i dfield0).isNull = true →
          (es.getD i foffs0).sqlNull = true) ∧
        ((dfields.getD i dfield0).isNull = false →
          (es.getD i foffs0).sqlNull = false ∧
          (es.getD i foffs0).ext = (dfields.getD i dfield0).ext ∧
          rec_get_nth_field es
              (rec_convert_dtuple_to_rec idx dfields .ordinary n_ext).recData i
            = some (dfields.getD i dfield0).data) := by
  rw [dtuple_respects] at hres
  by_cases hcomp : idx.comp = true
  · rw [if_pos hcomp] at hres
    obtain ⟨hlen, hprs⟩ := hres
    have hwfnull : ∀ pr ∈ List.zip idx.fields dfields,
        pr.2.isNull = true → pr.1.col.notNull = false := by
      intro pr hm hn
      exact (hprs pr hm).1 hn
    have hzlen : (List.zip idx.fields dfields).length = dfields.length := by
      rw [List.length_zip]
      omega
    refine ⟨rec_expected_entries (List.zip idx.fields dfields) 0,
      REC_N_NEW_EXTRA_BYTES + UT_BITS_IN_BYTES idx.n_nullable
        + (rec_convert_dtuple_to_rec_comp idx dfields .ordinary).lens.length,
      rec_any_ext (List.zip idx.fields dfields), ?_, ?_, ?_⟩
    · rw [rec_convert_dtuple_to_rec, if_pos hcomp]
      exact rec_comp_decode_encode idx dfields hlen hprs
    · rw [rec_expected_entries_length, hzlen]
    · intro i hi
      have hi1 : i < idx.fields.length := by omega
      have hiz : i < (List.zip idx.fields dfields).length := by omega
      have hgetD := rec_expected_entries_getD (List.zip idx.fields dfields)
        0 i hiz
      rw [zip_getD_snd _ _ i hi1 hi] at hgetD
      constructor
      · intro hn
        rw [hgetD.1, hn]
      · intro hn
        refine ⟨by rw [hgetD.1, hn], by rw [hgetD.2, hn]; simp, ?_⟩
        have hdata : (rec_convert_dtuple_to_rec idx dfields
            .ordinary n_ext).recData
            = (rec_convert_comp_fields (List.zip idx.fields dfields)).2.2 := by
          rw [rec_convert_dtuple_to_rec, if_pos hcomp]
          simp [PhysRec.recData, rec_convert_dtuple_to_rec_comp]
        have hslice := rec_expected_slice (List.zip idx.fields dfields) 0 []
          rfl hwfnull i hiz (by
            rw [zip_getD_snd _ _ i hi1 hi]
            exact hn)
        rw [zip_getD_snd _ _ i hi1 hi] at hslice
        simp only [List.nil_append] at hslice
        have hstart : rec_field_start
            (rec_expected_entries (List.zip idx.fields dfields) 0) i
            = rec_start_at (List.zip idx.fields dfields) 0 i := by
          cases i with
          | zero => rfl
          | succ j => rfl
        rw [hdata, rec_get_nth_field, hgetD.1, hn]
        simp only [Bool.false_eq_true, if_false]
        rw [hstart, hslice]
  · rw [if_neg hcomp] at hres
    obtain ⟨hcount, hsize, hnullext⟩ := hres
    have hcompf : idx.comp = false := by
      cases hx : idx.comp
      · rfl
      · exact absurd hx hcomp
    have hdisp : rec_convert_dtuple_to_rec idx dfields .ordinary n_ext
        = .oldRec (rec_convert_dtuple_to_rec_old dfields n_ext) := by
      rw [rec_convert_dtuple_to_rec, if_neg hcomp]
    have hmap : rec_init_offsets_old
        (rec_convert_dtuple_to_rec_old dfields n_ext)
        = rec_expected_entries_old dfields 0 := by
      rw [rec_init_offsets_old]
      show ((rec_convert_old_fields _ dfields 0).1).map
          (rec_init_offsets_old_entry _) = _
      apply rec_old_decode_encode dfields _ 0 hnullext
      · intro hone
        have hone2 : n_ext = 0 ∧ dtuple_get_data_size dfields
            ≤ REC_1BYTE_OFFS_LIMIT := by
          simpa [rec_convert_dtuple_to_rec_old] using hone
        constructor
        · intro f hf
          cases hn : f.isNull
          · by_contra hc
            have hx : f.ext = true := by
              cases hy : f.ext
              · exact absurd hy hc
              · rfl
            have hmem : f ∈ dfields.filter (fun g => !g.isNull && g.ext) := by
              rw [List.mem_filter]
              exact ⟨hf, by rw [hn, hx]; rfl⟩
            have : (dfields.filter (fun g => !g.isNull && g.ext)).length ≠ 0 := by
              intro hz
              rw [List.length_eq_zero] at hz
              rw [hz] at hmem
              simp at hmem
            omega
          · exact hnullext f hf hn
        · have := hone2.2
          rw [REC_1BYTE_OFFS_LIMIT] at this
          omega
      · intro htwo
        rw [REC_2BYTE_EXTERN_MASK] at hsize
        omega
    refine ⟨rec_expected_entries_old dfields 0,
      REC_N_OLD_EXTRA_BYTES
        + (if (rec_convert_dtuple_to_rec_old dfields n_ext).oneByte then
            (rec_convert_dtuple_to_rec_old dfields n_ext).ends.length
          else 2 * (rec_convert_dtuple_to_rec_old dfields n_ext).ends.length),
      (rec_expected_entries_old dfields 0).any (fun e => e.ext), ?_, ?_, ?_⟩
    · rw [hdisp]
      show some _ = _
      rw [hmap]
    · rw [rec_expected_old_length]
    · intro i hi
      have hgetD := rec_expected_old_getD dfields 0 i hi
      constructor
      · intro hn
        rw [hgetD.1, hn]
      · intro hn
        refine ⟨by rw [hgetD.1, hn], by rw [hgetD.2, hn]; simp, ?_⟩
        have hdata : (rec_convert_dtuple_to_rec idx dfields
            .ordinary n_ext).recData
            = (rec_convert_old_fields
                (rec_convert_dtuple_to_rec_old dfields n_ext).oneByte
                dfields 0).2 := by
          rw [hdisp]
          simp [PhysRec.recData, rec_convert_dtuple_to_rec_old]
        have hslice := rec_old_slice dfields
          (rec_convert_dtuple_to_rec_old dfields n_ext).oneByte 0 [] rfl
          i hi hn
        simp only [List.nil_append] at hslice
        have hstart : rec_field_start (rec_expected_entries_old dfields 0) i
            = rec_start_at_old dfields 0 i := by
          cases i with
          | zero => rfl
          | succ j => rfl
        rw [hdata, rec_get_nth_field, hgetD.1, hn]
        simp only [Bool.false_eq_true, if_false]
        rw [hstart, hslice]

theorem rec_comp_len_bytes_length (g : dict_field_t) (f : dfield_t)
    (hn : f.isNull = false) :
    (rec_comp_len_bytes g f).length = rec_field_extra_size g f := by
  by_cases h1 : g.fixed_len ≠ 0
  · simp [rec_comp_len_bytes, rec_field_extra_size, hn, h1]
  · by_cases h2 : f.ext = true
    · simp [rec_comp_len_bytes, rec_field_extra_size, hn, h1, h2]
    · by_cases h3 : (dfield_get_len f < 128 || !DATA_BIG_COL g.col) = true
      · simp [rec_comp_len_bytes, rec_field_extra_size, hn, h1, h2, h3]
      · simp [rec_comp_len_bytes, rec_field_extra_size, hn, h1, h2, h3]

theorem rec_convert_comp_lens_length (prs : List (dict_field_t × dfield_t)) :
    (∀ pr ∈ prs, pr.2.isNull = true → pr.1.col.notNull = false) →
    (rec_convert_comp_fields prs).2.1.length
      = (prs.map (fun p => rec_field_extra_size p.1 p.2)).sum := by
  induction prs with
  | nil =>
    intro hwf
    simp [rec_convert_comp_fields]
  | cons pr rest ih =>
    intro hwf
    obtain ⟨g, f⟩ := pr
    have hrest := ih (fun pr h => hwf pr (by simp [h]))
    cases hg : g.col.notNull with
    | false =>
      cases hn : f.isNull with
      | true =>
        simp [rec_convert_comp_fields, hg, hn, hrest,
          rec_field_extra_size]
      | false =>
        simp [rec_convert_comp_fields, hg, hn, hrest,
          rec_comp_len_bytes_length g f hn]
    | true =>
      have hn : f.isNull = false := by
        cases hx : f.isNull
        · rfl
        · exact absurd (hwf (g, f) (by simp) hx) (by rw [hg]; norm_num)
      simp [rec_convert_comp_fields, hg, hn, hrest,
        rec_comp_len_bytes_length g f hn]

theorem rec_convert_comp_data_length (prs : List (dict_field_t × dfield_t)) :
    (∀ pr ∈ prs, pr.2.isNull = true → pr.1.col.notNull = false) →
    (rec_convert_comp_fields prs).2.2.length
      = (prs.map (fun p => if p.2.isNull then 0 else dfield_get_len p.2)).sum := by
  induction prs with
  | nil =>
    intro hwf
    simp [rec_convert_comp_fields]
  | cons pr rest ih =>
    intro hwf
    obtain ⟨g, f⟩ := pr
    have hrest := ih (fun pr h => hwf pr (by simp [h]))
    cases hg : g.col.notNull with
    | false =>
      cases hn : f.isNull with
      | true => simp [rec_convert_comp_fields, hg, hn, hrest]
      | false => simp [rec_convert_comp_fields, hg, hn, hrest, dfield_get_len]
    | true =>
      have hn : f.isNull = false := by
        cases hx : f.isNull
        · rfl
        · exact absurd (hwf (g, f) (by simp) hx) (by rw [hg]; norm_num)
      simp [rec_convert_comp_fields, hg, hn, hrest, dfield_get_len]

theorem rec_comp_bits_le_aux (l1 : List dict_field_t) :
    ∀ (l2 : List dfield_t),
      (rec_convert_comp_fields (List.zip l1 l2)).1.length
        ≤ (l1.filter (fun f => !f.col.notNull)).length := by
  induction l1 with
  | nil =>
    intro l2
    simp [rec_convert_comp_fields]
  | cons g rest ih =>
    intro l2
    cases l2 with
    | nil => simp [rec_convert_comp_fields]
    | cons f l2r =>
      have hih := ih l2r
      simp only [List.zip] at hih
      cases hg : g.col.notNull <;> cases hn : f.isNull <;>
        simp [rec_convert_comp_fields, hg, hn, List.zip] <;> omega

theorem rec_comp_bits_eq_aux (l1 : List dict_field_t) :
    ∀ (l2 : List dfield_t), l2.length = l1.length →
      (rec_convert_comp_fields (List.zip l1 l2)).1.length
        = (l1.filter (fun f => !f.col.notNull)).length := by
  induction l1 with
  | nil =>
    intro l2 h
    simp [rec_convert_comp_fields]
  | cons g rest ih =>
    intro l2 h
    cases l2 with
    | nil => simp at h
    | cons f l2r =>
      have h2 : l2r.length = rest.length := by simpa using h
      have hih := ih l2r h2
      simp only [List.zip] at hih
      cases hg : g.col.notNull <;> cases hn : f.isNull <;>
        simp [rec_convert_comp_fields, hg, hn, List.zip, hih]

theorem rec_comp_null_bytes_length (idx : dict_index_t) (nF : Nat)
    (bits : List Bool) (hle : bits.length ≤ idx.n_nullable) :
    (rec_comp_null_bytes idx nF bits).length
      = if nF = 0 then 0 else UT_BITS_IN_BYTES idx.n_nullable := by
  by_cases h : nF = 0
  · simp [rec_comp_null_bytes, h]
  · rw [rec_comp_null_bytes, if_neg h, if_neg h]
    have hplen : (packBits bits).length = (bits.length + 7) / 8 := by
      simpa [packBits] using packBitsAux_length bits 0 0 (by omega)
    rw [List.length_append, List.length_replicate, hplen, UT_BITS_IN_BYTES]
    omega

/-- Claim C2 — size law: for every compact-format tuple and record status,
the total number of bytes (extra header plus data) written by the compact
encoder equals the value returned by `rec_get_converted_size_comp` for the
same index, status and fields, and the record origin is placed exactly at
the returned extra size from the start of the caller's buffer. -/
theorem rec_converted_size_law (idx : dict_index_t) (dfields : List dfield_t)
    (status : rec_status) (hwf : dtuple_status_wf idx dfields status) :
    (rec_convert_dtuple_to_rec_new idx dfields status).2.length
        = (rec_get_converted_size_comp idx status dfields).2 ∧
    (rec_convert_dtuple_to_rec_new idx dfields status).1
        = (rec_get_converted_size_comp idx status dfields).1 ∧
    (rec_comp_extra_bytes
        (rec_convert_dtuple_to_rec_comp idx dfields status)).length
      = (rec_get_converted_size_comp idx status dfields).1 := by
  cases status with
  | ordinary =>
    simp only [dtuple_status_wf, dtuple_respects_comp] at hwf
    obtain ⟨hlen, hprs⟩ := hwf
    have hwfnull : ∀ pr ∈ List.zip idx.fields dfields,
        pr.2.isNull = true → pr.1.col.notNull = false :=
      fun pr hm hn => (hprs pr hm).1 hn
    have hbits := rec_comp_bits_eq_aux idx.fields dfields (by omega)
    have hlens := rec_convert_comp_lens_length _ hwfnull
    have hdata := rec_convert_comp_data_length _ hwfnull
    have hnb := rec_comp_null_bytes_length idx dfields.length
      (rec_convert_comp_fields (List.zip idx.fields dfields)).1
      (by rw [hbits, dict_index_t.n_nullable])
    have henc : rec_convert_dtuple_to_rec_comp idx dfields .ordinary
        = ⟨rec_comp_null_bytes idx dfields.length
            (rec_convert_comp_fields (List.zip idx.fields dfields)).1,
          (rec_convert_comp_fields (List.zip idx.fields dfields)).2.1,
          (rec_convert_comp_fields (List.zip idx.fields dfields)).2.2⟩ := rfl
    refine ⟨?_, rfl, ?_⟩
    · show (rec_comp_bytes
          (rec_convert_dtuple_to_rec_comp idx dfields .ordinary)).length = _
      rw [henc]
      simp only [rec_comp_bytes, rec_comp_extra_bytes, List.length_append,
        List.length_reverse, List.length_replicate]
      rw [hlens, hdata, hnb]
      simp only [rec_get_converted_size_comp, rec_get_converted_size_comp_low]
      by_cases h0 : dfields.length = 0
      · have hdf : dfields = [] := List.length_eq_zero.mp h0
        simp [h0, hdf, UT_BITS_IN_BYTES, REC_N_NEW_EXTRA_BYTES]
      · simp only [if_neg h0]
        omega
    · rw [henc]
      simp only [rec_comp_extra_bytes, List.length_append,
        List.length_reverse, List.length_replicate]
      rw [hlens, hnb]
      simp only [rec_get_converted_size_comp, rec_get_converted_size_comp_low]
      by_cases h0 : dfields.length = 0
      · have hdf : dfields = [] := List.length_eq_zero.mp h0
        simp [h0, hdf, UT_BITS_IN_BYTES, REC_N_NEW_EXTRA_BYTES]
      · simp only [if_neg h0]
        omega
  | node_ptr =>
    simp only [dtuple_status_wf] at hwf
    obtain ⟨h2le, hdrople, hprs, hlast⟩ := hwf
    have hwfnull : ∀ pr ∈ List.zip idx.fields dfields.dropLast,
        pr.2.isNull = true → pr.1.col.notNull = false :=
      fun pr hm hn => (hprs pr hm).1 hn
    have hbits := rec_comp_bits_le_aux idx.fields dfields.dropLast
    have hlens := rec_convert_comp_lens_length _ hwfnull
    have hdata := rec_convert_comp_data_length _ hwfnull
    have hnb := rec_comp_null_bytes_length idx dfields.length
      (rec_convert_comp_fields (List.zip idx.fields dfields.dropLast)).1
      (by rw [dict_index_t.n_nullable]; exact hbits)
    have hlast2 : ((dfields.getLast?.map dfield_t.data).getD []).length
        = REC_NODE_PTR_SIZE := by
      cases ho : dfields.getLast? with
      | none =>
        rw [List.getLast?_eq_none_iff] at ho
        rw [ho] at h2le
        simp at h2le
      | some l =>
        rw [ho] at hlast
        simp only [Option.map_some', Option.getD_some] at hlast
        simp [hlast]
    have hdroplen : dfields.dropLast.length = dfields.length - 1 := by
      simp
    have henc : rec_convert_dtuple_to_rec_comp idx dfields .node_ptr
        = ⟨rec_comp_null_bytes idx dfields.length
            (rec_convert_comp_fields
              (List.zip idx.fields dfields.dropLast)).1,
          (rec_convert_comp_fields
            (List.zip idx.fields dfields.dropLast)).2.1,
          (rec_convert_comp_fields
            (List.zip idx.fields dfields.dropLast)).2.2
            ++ ((dfields.getLast?.map dfield_t.data).getD [])⟩ := rfl
    have hn0 : ¬dfields.length = 0 := by omega
    have hn0d : ¬dfields.dropLast.length = 0 := by omega
    refine ⟨?_, rfl, ?_⟩
    · show (rec_comp_bytes
          (rec_convert_dtuple_to_rec_comp idx dfields .node_ptr)).length = _
      rw [henc]
      simp only [rec_comp_bytes, rec_comp_extra_bytes, List.length_append,
        List.length_reverse, List.length_replicate]
      rw [hlens, hdata, hnb, hlast2]
      simp only [rec_get_converted_size_comp, rec_get_converted_size_comp_low,
        if_neg hn0, if_neg hn0d]
      omega
    · rw [henc]
      simp only [rec_comp_extra_bytes, List.length_append,
        List.length_reverse, List.length_replicate]
      rw [hlens, hnb]
      simp only [rec_get_converted_size_comp, rec_get_converted_size_comp_low,
        if_neg hn0, if_neg hn0d]
      omega
  | infimum =>
    simp only [dtuple_status_wf, infsup_wf] at hwf
    obtain ⟨hnn0, fld, f, hhead, hdf, hcnn, hcfix, hfn, hfe, hflen⟩ := hwf
    subst hdf
    cases hfl : idx.fields with
    | nil =>
      rw [hfl] at hhead
      simp at hhead
    | cons fld0 tail =>
      rw [hfl] at hhead
      simp only [List.head?_cons, Option.some.injEq] at hhead
      subst hhead
      have hzip : List.zip idx.fields [f] = [(fld0, f)] := by
        rw [hfl]
        simp [List.zip]
      have hfields : rec_convert_comp_fields [(fld0, f)]
          = ([], [], f.data) := by
        simp [rec_convert_comp_fields, hcnn, rec_comp_len_bytes, hcfix]
      have henc : rec_convert_dtuple_to_rec_comp idx [f] .infimum
          = ⟨rec_comp_null_bytes idx 1 [], [], f.data⟩ := by
        show (⟨rec_comp_null_bytes idx 1
            (rec_convert_comp_fields (List.zip idx.fields [f])).1,
          (rec_convert_comp_fields (List.zip idx.fields [f])).2.1,
          (rec_convert_comp_fields (List.zip idx.fields [f])).2.2⟩ : RecComp)
          = _
        rw [hzip, hfields]
      have hnbv : rec_comp_null_bytes idx 1 [] = [] := by
        rw [rec_comp_null_bytes, if_neg (by norm_num), hnn0]
        simp [packBits, packBitsAux, UT_BITS_IN_BYTES]
      refine ⟨?_, rfl, ?_⟩
      · show (rec_comp_bytes
            (rec_convert_dtuple_to_rec_comp idx [f] .infimum)).length = _
        rw [henc, hnbv]
        simp [rec_comp_bytes, rec_comp_extra_bytes,
          rec_get_converted_size_comp, REC_N_NEW_EXTRA_BYTES, hflen]
      · rw [henc, hnbv]
        simp [rec_comp_extra_bytes, rec_get_converted_size_comp,
          REC_N_NEW_EXTRA_BYTES]
  | supremum =>
    simp only [dtuple_status_wf, infsup_wf] at hwf
    obtain ⟨hnn0, fld, f, hhead, hdf, hcnn, hcfix, hfn, hfe, hflen⟩ := hwf
    subst hdf
    cases hfl : idx.fields with
    | nil =>
      rw [hfl] at hhead
      simp at hhead
    | cons fld0 tail =>
      rw [hfl] at hhead
      simp only [List.head?_cons, Option.some.injEq] at hhead
      subst hhead
      have hzip : List.zip idx.fields [f] = [(fld0, f)] := by
        rw [hfl]
        simp [List.zip]
      have hfields : rec_convert_comp_fields [(fld0, f)]
          = ([], [], f.data) := by
        simp [rec_convert_comp_fields, hcnn, rec_comp_len_bytes, hcfix]
      have henc : rec_convert_dtuple_to_rec_comp idx [f] .supremum
          = ⟨rec_comp_null_bytes idx 1 [], [], f.data⟩ := by
        show (⟨rec_comp_null_bytes idx 1
            (rec_convert_comp_fields (List.zip idx.fields [f])).1,
          (rec_convert_comp_fields (List.zip idx.fields [f])).2.1,
          (rec_convert_comp_fields (List.zip idx.fields [f])).2.2⟩ : RecComp)
          = _
        rw [hzip, hfields]
      have hnbv : rec_comp_null_bytes idx 1 [] = [] := by
        rw [rec_comp_null_bytes, if_neg (by norm_num), hnn0]
        simp [packBits, packBitsAux, UT_BITS_IN_BYTES]
      refine ⟨?_, rfl, ?_⟩
      · show (rec_comp_bytes
            (rec_convert_dtuple_to_rec_comp idx [f] .supremum)).length = _
        rw [henc, hnbv]
        simp [rec_comp_bytes, rec_comp_extra_bytes,
          rec_get_converted_size_comp, REC_N_NEW_EXTRA_BYTES, hflen]
      · rw [henc, hnbv]
        simp [rec_comp_extra_bytes, rec_get_converted_size_comp,
          REC_N_NEW_EXTRA_BYTES]

/-- Claim C3 — compact length-prefix rule: for a non-null variable-length
field respecting its descriptor, the encoder's length prefix occupies one
byte exactly when the column's maximum length is at most 255 bytes or the
actual length is below 128 and the field is not stored externally;
otherwise it occupies two bytes whose top bit is set and whose
second-highest bit equals the external-storage flag, and the decoder reads
back exactly the encoded length and external flag. -/
theorem rec_len_pfx_rule (ifield : dict_field_t) (f : dfield_t)
    (hres : dfield_respects ifield f) (hnn : f.isNull = false)
    (hvar : ifield.fixed_len = 0) :
    ((rec_comp_len_bytes ifield f).length = 1 ↔
      (ifield.col.len ≤ 255 ∨
        (dfield_get_len f < 128 ∧ f.ext = false))) ∧
    ((rec_comp_len_bytes ifield f).length = 1 ∨
      (rec_comp_len_bytes ifield f).length = 2) ∧
    (∀ b1 b2, rec_comp_len_bytes ifield f = [b1, b2] →
      b1.testBit 7 = true ∧ b1.testBit 6 = f.ext) ∧
    (∀ ls offs, rec_comp_read_field_len ifield
        (rec_comp_len_bytes ifield f ++ ls) offs
      = some (⟨offs + dfield_get_len f, false, f.ext⟩, ls)) := by
  have hdec := rec_comp_read_len_encode ifield f hres hnn
  obtain ⟨h1, h2, h3, h4⟩ := hres
  refine ⟨?_, ?_, ?_, fun ls offs => hdec ls offs⟩ <;>
    by_cases hext : f.ext = true
  case pos =>
    obtain ⟨-, -, hbig⟩ := h2 hext
    have hcollen : 255 < ifield.col.len := by
      simpa [DATA_BIG_COL] using hbig
    have hb : rec_comp_len_bytes ifield f
        = [((f.data.length >>> 8) % 256) ||| 0xc0, f.data.length % 256] := by
      simp [rec_comp_len_bytes, hvar, hext, dfield_get_len]
    rw [hb]
    constructor
    · intro h
      simp at h
    · rintro (hc | ⟨-, hc⟩)
      · exact absurd hc (by omega)
      · rw [hext] at hc
        simp at hc
  case neg =>
    have hextf : f.ext = false := by
      revert hext
      cases f.ext <;> simp
    by_cases hbig : DATA_BIG_COL ifield.col = true
    · have hcollen : 255 < ifield.col.len := by
        simpa [DATA_BIG_COL] using hbig
      by_cases hsmall : f.data.length < 128
      · have hb : rec_comp_len_bytes ifield f = [f.data.length % 256] := by
          simp [rec_comp_len_bytes, hvar, hextf, dfield_get_len, hsmall]
        rw [hb]
        constructor
        · intro _
          exact Or.inr ⟨hsmall, hextf⟩
        · intro _
          rfl
      · have hb : rec_comp_len_bytes ifield f
            = [((f.data.length >>> 8) % 256) ||| 0x80,
               f.data.length % 256] := by
          simp [rec_comp_len_bytes, hvar, hextf, dfield_get_len, hsmall, hbig]
        rw [hb]
        constructor
        · intro h
          simp at h
        · rintro (hc | ⟨hc, -⟩)
          · exact absurd hc (by omega)
          · exact absurd hc hsmall
    · have hbigf : DATA_BIG_COL ifield.col = false := by
        revert hbig
        cases DATA_BIG_COL ifield.col <;> simp
      have hcollen : ifield.col.len ≤ 255 := by
        simp [DATA_BIG_COL] at hbigf
        omega
      have hb : rec_comp_len_bytes ifield f = [f.data.length % 256] := by
        simp [rec_comp_len_bytes, hvar, hextf, dfield_get_len, hbigf]
      rw [hb]
      constructor
      · intro _
        exact Or.inl hcollen
      · intro _
        rfl
  case pos =>
    obtain ⟨-, -, hbig⟩ := h2 hext
    have hlen : f.data.length < 16384 := (h4 hvar).1 hbig
    have hb : rec_comp_len_bytes ifield f
        = [((f.data.length >>> 8) % 256) ||| 0xc0, f.data.length % 256] := by
      simp [rec_comp_len_bytes, hvar, hext, dfield_get_len]
    rw [hb]
    right
    rfl
  case neg =>
    have hextf : f.ext = false := by
      revert hext
      cases f.ext <;> simp
    by_cases hbig : DATA_BIG_COL ifield.col = true
    · by_cases hsmall : f.data.length < 128
      · left
        rw [show rec_comp_len_bytes ifield f = [f.data.length % 256] by
          simp [rec_comp_len_bytes, hvar, hextf, dfield_get_len, hsmall]]
        rfl
      · right
        rw [show rec_comp_len_bytes ifield f
            = [((f.data.length >>> 8) % 256) ||| 0x80,
               f.data.length % 256] by
          simp [rec_comp_len_bytes, hvar, hextf, dfield_get_len, hsmall, hbig]]
        rfl
    · have hbigf : DATA_BIG_COL ifield.col = false := by
        revert hbig
        cases DATA_BIG_COL ifield.col <;> simp
      left
      rw [show rec_comp_len_bytes ifield f = [f.data.length % 256] by
        simp [rec_comp_len_bytes, hvar, hextf, dfield_get_len, hbigf]]
      rfl
  case pos =>
    obtain ⟨-, -, hbig⟩ := h2 hext
    have hlen : f.data.length < 16384 := (h4 hvar).1 hbig
    have hb : rec_comp_len_bytes ifield f
        = [((f.data.length >>> 8) % 256) ||| 0xc0, f.data.length % 256] := by
      simp [rec_comp_len_bytes, hvar, hext, dfield_get_len]
    intro b1 b2 heq
    rw [hb] at heq
    injection heq with e1 rest
    injection rest with e2 e3
    subst e1
    obtain ⟨-, -, -, -, -, htb7, htb6⟩ :=
      rec_two_byte_facts f.data.length 3 hlen (Or.inr rfl)
    rw [show ((3 : Nat) <<< 6) = 0xc0 by decide] at htb7 htb6
    refine ⟨htb7, ?_⟩
    rw [htb6, hext]
    decide
  case neg =>
    have hextf : f.ext = false := by
      revert hext
      cases f.ext <;> simp
    by_cases hbig : DATA_BIG_COL ifield.col = true
    · by_cases hsmall : f.data.length < 128
      · intro b1 b2 heq
        rw [show rec_comp_len_bytes ifield f = [f.data.length % 256] by
          simp [rec_comp_len_bytes, hvar, hextf, dfield_get_len, hsmall]]
          at heq
        simp at heq
      · have hlen : f.data.length < 16384 := (h4 hvar).1 hbig
        intro b1 b2 heq
        rw [show rec_comp_len_bytes ifield f
            = [((f.data.length >>> 8) % 256) ||| 0x80,
               f.data.length % 256] by
          simp [rec_comp_len_bytes, hvar, hextf, dfield_get_len, hsmall,
            hbig]] at heq
        injection heq with e1 rest
        injection rest with e2 e3
        subst e1
        obtain ⟨-, -, -, -, -, htb7, htb6⟩ :=
          rec_two_byte_facts f.data.length 2 hlen (Or.inl rfl)
        rw [show ((2 : Nat) <<< 6) = 0x80 by decide] at htb7 htb6
        refine ⟨htb7, ?_⟩
        rw [htb6, hextf]
        decide
    · have hbigf : DATA_BIG_COL ifield.col = false := by
        revert hbig
        cases DATA_BIG_COL ifield.col <;> simp
      intro b1 b2 heq
      rw [show rec_comp_len_bytes ifield f = [f.data.length % 256] by
        simp [rec_comp_len_bytes, hvar, hextf, dfield_get_len, hbigf]]
        at heq
      simp at heq

/-- Witness for the length-prefix rule at a concrete externally stored
value in a big column. -/
theorem rec_len_pfx_rule_witness :
    (dfield_respects lpfxField lpfxVal ∧ lpfxVal.isNull = false ∧
      lpfxField.fixed_len = 0) ∧
    (((rec_comp_len_bytes lpfxField lpfxVal).length = 1 ↔
        (lpfxField.col.len ≤ 255 ∨
          (dfield_get_len lpfxVal < 128 ∧ lpfxVal.ext = false))) ∧
      ((rec_comp_len_bytes lpfxField lpfxVal).length = 1 ∨
        (rec_comp_len_bytes lpfxField lpfxVal).length = 2) ∧
      (∀ b1 b2, rec_comp_len_bytes lpfxField lpfxVal = [b1, b2] →
        b1.testBit 7 = true ∧ b1.testBit 6 = lpfxVal.ext) ∧
      (∀ ls offs, rec_comp_read_field_len lpfxField
          (rec_comp_len_bytes lpfxField lpfxVal ++ ls) offs
        = some (⟨offs + dfield_get_len lpfxVal, false, lpfxVal.ext⟩, ls))) :=
  ⟨⟨by unfold dfield_respects; decide, rfl, rfl⟩,
    rec_len_pfx_rule lpfxField lpfxVal (by unfold dfield_respects; decide)
      rfl rfl⟩

/-- Claim C4 — directory slot split: when slot `slot_no > 0` owns
`N = PAGE_DIR_SLOT_MAX_N_OWNED + 1` records, the split inserts one new
slot at `slot_no` pointing at the record reached by `⌊N/2⌋` next steps
from the previous slot's record and owning `⌊N/2⌋` records, moves the old
slot to `slot_no + 1` with `N - ⌊N/2⌋` owned records, shifts the later
slots up by one, increments `n_dir_slots`, and leaves both counts at most
`PAGE_DIR_SLOT_MAX_N_OWNED`. -/
theorem page_dir_split_slot_spec (p : Page) (slot_no : Nat)
    (h0 : 0 < slot_no) (hlt : slot_no < p.n_dir_slots)
    (hN : p.n_owned (p.slots slot_no) = PAGE_DIR_SLOT_MAX_N_OWNED + 1)
    (hmid : page_rec_next_iter p ((PAGE_DIR_SLOT_MAX_N_OWNED + 1) / 2)
        (p.slots (slot_no - 1)) ≠ p.slots slot_no) :
    (page_dir_split_slot p slot_no).n_dir_slots = p.n_dir_slots + 1 ∧
    (page_dir_split_slot p slot_no).slots slot_no
      = page_rec_next_iter p ((PAGE_DIR_SLOT_MAX_N_OWNED + 1) / 2)
          (p.slots (slot_no - 1)) ∧
    (page_dir_split_slot p slot_no).slots (slot_no + 1) = p.slots slot_no ∧
    (∀ j, slot_no + 1 < j → j ≤ p.n_dir_slots →
      (page_dir_split_slot p slot_no).slots j = p.slots (j - 1)) ∧
    (∀ j, j < slot_no → (page_dir_split_slot p slot_no).slots j = p.slots j) ∧
    (page_dir_split_slot p slot_no).n_owned
        (page_rec_next_iter p ((PAGE_DIR_SLOT_MAX_N_OWNED + 1) / 2)
          (p.slots (slot_no - 1)))
      = (PAGE_DIR_SLOT_MAX_N_OWNED + 1) / 2 ∧
    (page_dir_split_slot p slot_no).n_owned (p.slots slot_no)
      = (PAGE_DIR_SLOT_MAX_N_OWNED + 1)
        - (PAGE_DIR_SLOT_MAX_N_OWNED + 1) / 2 ∧
    (PAGE_DIR_SLOT_MAX_N_OWNED + 1) / 2 ≤ PAGE_DIR_SLOT_MAX_N_OWNED ∧
    (PAGE_DIR_SLOT_MAX_N_OWNED + 1) - (PAGE_DIR_SLOT_MAX_N_OWNED + 1) / 2
      ≤ PAGE_DIR_SLOT_MAX_N_OWNED := by
  have hadd2 : slot_no - 1 + 2 = slot_no + 1 := by omega
  have hsup1 : (page_dir_split_slot p slot_no).slots (slot_no + 1)
      = p.slots slot_no := by
    simp only [page_dir_split_slot, page_dir_add_slot, hadd2]
    rw [Function.update_noteq (by omega)]
    rw [if_pos ⟨le_refl _, by omega⟩]
    congr 1
  have hno : (page_dir_split_slot p slot_no).n_owned
      = Function.update
          (Function.update p.n_owned
            (page_rec_next_iter p ((PAGE_DIR_SLOT_MAX_N_OWNED + 1) / 2)
              (p.slots (slot_no - 1)))
            ((PAGE_DIR_SLOT_MAX_N_OWNED + 1) / 2))
          (p.slots slot_no)
          ((PAGE_DIR_SLOT_MAX_N_OWNED + 1)
            - (PAGE_DIR_SLOT_MAX_N_OWNED + 1) / 2) := by
    simp only [page_dir_split_slot, page_dir_add_slot, hadd2]
    rw [hN]
    rw [Function.update_noteq (by omega)]
    rw [if_pos ⟨le_refl _, by omega⟩]
    congr 1
  refine ⟨rfl, ?_, hsup1, ?_, ?_, ?_, ?_, by decide, by decide⟩
  · simp only [page_dir_split_slot, page_dir_add_slot, hadd2]
    rw [Function.update_same, hN]
  · intro j hj1 hj2
    simp only [page_dir_split_slot, page_dir_add_slot, hadd2]
    rw [Function.update_noteq (by omega)]
    rw [if_pos ⟨by omega, hj2⟩]
  · intro j hj
    simp only [page_dir_split_slot, page_dir_add_slot, hadd2]
    rw [Function.update_noteq (by omega)]
    rw [if_neg (by omega)]
  · rw [hno, Function.update_noteq hmid, Function.update_same]
  · rw [hno, Function.update_same]

/-- Witness for the slot split on the nine-record test page: splitting
slot 1 walks four steps from the infimum to record 160. -/
theorem page_dir_split_slot_spec_witness :
    (0 < 1 ∧ 1 < testPageSplit.n_dir_slots ∧
      testPageSplit.n_owned (testPageSplit.slots 1)
        = PAGE_DIR_SLOT_MAX_N_OWNED + 1 ∧
      page_rec_next_iter testPageSplit ((PAGE_DIR_SLOT_MAX_N_OWNED + 1) / 2)
          (testPageSplit.slots (1 - 1)) ≠ testPageSplit.slots 1) ∧
    ((page_dir_split_slot testPageSplit 1).n_dir_slots
        = testPageSplit.n_dir_slots + 1 ∧
      (page_dir_split_slot testPageSplit 1).slots 1
        = page_rec_next_iter testPageSplit
            ((PAGE_DIR_SLOT_MAX_N_OWNED + 1) / 2)
            (testPageSplit.slots (1 - 1)) ∧
      (page_dir_split_slot testPageSplit 1).slots (1 + 1)
        = testPageSplit.slots 1 ∧
      (∀ j, 1 + 1 < j → j ≤ testPageSplit.n_dir_slots →
        (page_dir_split_slot testPageSplit 1).slots j
          = testPageSplit.slots (j - 1)) ∧
      (∀ j, j < 1 → (page_dir_split_slot testPageSplit 1).slots j
        = testPageSplit.slots j) ∧
      (page_dir_split_slot testPageSplit 1).n_owned
          (page_rec_next_iter testPageSplit
            ((PAGE_DIR_SLOT_MAX_N_OWNED + 1) / 2)
            (testPageSplit.slots (1 - 1)))
        = (PAGE_DIR_SLOT_MAX_N_OWNED + 1) / 2 ∧
      (page_dir_split_slot testPageSplit 1).n_owned (testPageSplit.slots 1)
        = (PAGE_DIR_SLOT_MAX_N_OWNED + 1)
          - (PAGE_DIR_SLOT_MAX_N_OWNED + 1) / 2 ∧
      (PAGE_DIR_SLOT_MAX_N_OWNED + 1) / 2 ≤ PAGE_DIR_SLOT_MAX_N_OWNED ∧
      (PAGE_DIR_SLOT_MAX_N_OWNED + 1) - (PAGE_DIR_SLOT_MAX_N_OWNED + 1) / 2
        ≤ PAGE_DIR_SLOT_MAX_N_OWNED) :=
  ⟨⟨by decide, by decide, by decide, by decide⟩,
    page_dir_split_slot_spec testPageSplit 1 (by decide) (by decide)
      (by decide) (by decide)⟩

/-- Claim C5 — directory slot balance: when slot `slot_no > 0` owns
`PAGE_DIR_SLOT_MIN_N_OWNED - 1` records, balancing is a no-op on the last
slot; otherwise, if the upper neighbour owns more than the minimum, one
record is transferred (the slot advances one list step, the former owner's
count becomes 0, the new owner's becomes the minimum, the upper owner's
count drops by one and the slot count is unchanged); otherwise the slot is
deleted: its count is folded into the upper owner, later slots shift down,
the freed last entry is zeroed and `n_dir_slots` decreases by one. -/
theorem page_dir_balance_slot_spec (p : Page) (slot_no : Nat)
    (h0 : 0 < slot_no) (hlt : slot_no < p.n_dir_slots)
    (hN : p.n_owned (p.slots slot_no) = PAGE_DIR_SLOT_MIN_N_OWNED - 1) :
    (slot_no = p.n_dir_slots - 1 → page_dir_balance_slot p slot_no = p) ∧
    (slot_no ≠ p.n_dir_slots - 1 →
      PAGE_DIR_SLOT_MIN_N_OWNED < p.n_owned (p.slots (slot_no + 1)) →
      p.next (p.slots slot_no) ≠ p.slots slot_no →
      p.slots (slot_no + 1) ≠ p.slots slot_no →
      p.slots (slot_no + 1) ≠ p.next (p.slots slot_no) →
      (page_dir_balance_slot p slot_no).slots slot_no
          = p.next (p.slots slot_no) ∧
      (∀ j, j ≠ slot_no →
        (page_dir_balance_slot p slot_no).slots j = p.slots j) ∧
      (page_dir_balance_slot p slot_no).n_owned (p.slots slot_no) = 0 ∧
      (page_dir_balance_slot p slot_no).n_owned (p.next (p.slots slot_no))
        = PAGE_DIR_SLOT_MIN_N_OWNED ∧
      (page_dir_balance_slot p slot_no).n_owned (p.slots (slot_no + 1))
        = p.n_owned (p.slots (slot_no + 1)) - 1 ∧
      (page_dir_balance_slot p slot_no).n_dir_slots = p.n_dir_slots) ∧
    (slot_no ≠ p.n_dir_slots - 1 →
      ¬ PAGE_DIR_SLOT_MIN_N_OWNED < p.n_owned (p.slots (slot_no + 1)) →
      p.slots (slot_no + 1) ≠ p.slots slot_no →
      (page_dir_balance_slot p slot_no).n_dir_slots = p.n_dir_slots - 1 ∧
      (page_dir_balance_slot p slot_no).n_owned (p.slots slot_no) = 0 ∧
      (page_dir_balance_slot p slot_no).n_owned (p.slots (slot_no + 1))
        = PAGE_DIR_SLOT_MIN_N_OWNED - 1
          + p.n_owned (p.slots (slot_no + 1)) ∧
      (∀ j, slot_no ≤ j → j + 1 < p.n_dir_slots →
        (page_dir_balance_slot p slot_no).slots j = p.slots (j + 1)) ∧
      (∀ j, j < slot_no →
        (page_dir_balance_slot p slot_no).slots j = p.slots j) ∧
      (page_dir_balance_slot p slot_no).slots (p.n_dir_slots - 1) = 0) := by
  refine ⟨?_, ?_, ?_⟩
  · intro h
    simp [page_dir_balance_slot, h]
  · intro hne hup d1 d2 d3
    refine ⟨?_, ?_, ?_, ?_, ?_, ?_⟩
    · simp only [page_dir_balance_slot, if_neg hne, if_pos hup]
      rw [Function.update_same]
    · intro j hj
      simp only [page_dir_balance_slot, if_neg hne, if_pos hup]
      rw [Function.update_noteq hj]
    · simp only [page_dir_balance_slot, if_neg hne, if_pos hup]
      rw [show Function.update p.slots slot_no (p.next (p.slots slot_no))
          (slot_no + 1) = p.slots (slot_no + 1)
        from Function.update_noteq (by omega) _ _]
      rw [Function.update_noteq (Ne.symm d2),
        Function.update_noteq (Ne.symm d1), Function.update_same]
    · simp only [page_dir_balance_slot, if_neg hne, if_pos hup]
      rw [show Function.update p.slots slot_no (p.next (p.slots slot_no))
          (slot_no + 1) = p.slots (slot_no + 1)
        from Function.update_noteq (by omega) _ _]
      rw [Function.update_noteq (Ne.symm d3), Function.update_same, hN]
      decide
    · simp only [page_dir_balance_slot, if_neg hne, if_pos hup]
      rw [show Function.update p.slots slot_no (p.next (p.slots slot_no))
          (slot_no + 1) = p.slots (slot_no + 1)
        from Function.update_noteq (by omega) _ _]
      rw [Function.update_same]
    · simp only [page_dir_balance_slot, if_neg hne, if_pos hup]
  · intro hne hup d2
    have hlast : slot_no < p.n_dir_slots - 1 := by omega
    refine ⟨?_, ?_, ?_, ?_, ?_, ?_⟩
    · simp only [page_dir_balance_slot, if_neg hne, if_neg hup,
        page_dir_delete_slot]
    · simp only [page_dir_balance_slot, if_neg hne, if_neg hup,
        page_dir_delete_slot]
      rw [Function.update_noteq (Ne.symm d2), Function.update_same]
    · simp only [page_dir_balance_slot, if_neg hne, if_neg hup,
        page_dir_delete_slot]
      rw [Function.update_same, Function.update_noteq d2, hN]
    · intro j hj1 hj2
      simp only [page_dir_balance_slot, if_neg hne, if_neg hup,
        page_dir_delete_slot]
      rw [Function.update_noteq (by omega)]
      rw [if_pos ⟨hj1, by omega⟩]
    · intro j hj
      simp only [page_dir_balance_slot, if_neg hne, if_neg hup,
        page_dir_delete_slot]
      rw [Function.update_noteq (by omega)]
      rw [if_neg (by omega)]
    · simp only [page_dir_balance_slot, if_neg hne, if_neg hup,
        page_dir_delete_slot]
      rw [Function.update_same]

/-- Witness for the slot balance on the eight-record test page: balancing
slot 1 (owner 150, three records) against slot 2 (owner 200, five records)
transfers record 160. -/
theorem page_dir_balance_slot_spec_witness :
    (0 < 1 ∧ 1 < testPageBalance.n_dir_slots ∧
      testPageBalance.n_owned (testPageBalance.slots 1)
        = PAGE_DIR_SLOT_MIN_N_OWNED - 1 ∧
      (1 : Nat) ≠ testPageBalance.n_dir_slots - 1 ∧
      PAGE_DIR_SLOT_MIN_N_OWNED
        < testPageBalance.n_owned (testPageBalance.slots (1 + 1)) ∧
      testPageBalance.next (testPageBalance.slots 1)
        ≠ testPageBalance.slots 1 ∧
      testPageBalance.slots (1 + 1) ≠ testPageBalance.slots 1 ∧
      testPageBalance.slots (1 + 1)
        ≠ testPageBalance.next (testPageBalance.slots 1)) ∧
    ((page_dir_balance_slot testPageBalance 1).slots 1
        = testPageBalance.next (testPageBalance.slots 1) ∧
      (∀ j, j ≠ 1 →
        (page_dir_balance_slot testPageBalance 1).slots j
          = testPageBalance.slots j) ∧
      (page_dir_balance_slot testPageBalance 1).n_owned
          (testPageBalance.slots 1) = 0 ∧
      (page_dir_balance_slot testPageBalance 1).n_owned
          (testPageBalance.next (testPageBalance.slots 1))
        = PAGE_DIR_SLOT_MIN_N_OWNED ∧
      (page_dir_balance_slot testPageBalance 1).n_owned
          (testPageBalance.slots (1 + 1))
        = testPageBalance.n_owned (testPageBalance.slots (1 + 1)) - 1 ∧
      (page_dir_balance_slot testPageBalance 1).n_dir_slots
        = testPageBalance.n_dir_slots) :=
  ⟨⟨by decide, by decide, by decide, by decide, by decide, by decide,
      by decide, by decide⟩,
    (page_dir_balance_slot_spec testPageBalance 1 (by decide) (by decide)
        (by decide)).2.1
      (by decide) (by decide) (by decide) (by decide) (by decide)⟩

/-- Claim C6 — heap allocation: `page_mem_alloc_heap` succeeds exactly when
the free region between `heap_top` and the directory slot array has at
least `need` bytes; on success it returns the old `heap_top` as the block,
the old `n_heap` as the heap number, and the page with `heap_top` advanced
by `need` and `n_heap` incremented by one, all other fields unchanged; on
failure it returns `none` and no page. -/
theorem page_mem_alloc_heap_spec (p : Page) (need : Nat) :
    ((page_mem_alloc_heap p need).isSome ↔
      need ≤ page_get_max_insert_size_1 p) ∧
    (∀ block heap_no q,
      page_mem_alloc_heap p need = some (block, heap_no, q) →
      block = p.heap_top ∧ heap_no = p.n_heap ∧
      q.heap_top = p.heap_top + need ∧ q.n_heap = p.n_heap + 1 ∧
      q.n_dir_slots = p.n_dir_slots ∧ q.slots = p.slots ∧
      q.n_owned = p.n_owned ∧ q.next = p.next ∧ q.n_recs = p.n_recs ∧
      q.free = p.free ∧ q.garbage = p.garbage ∧
      q.max_trx_id = p.max_trx_id ∧ q.level = p.level ∧ q.comp = p.comp) ∧
    (¬ need ≤ page_get_max_insert_size_1 p →
      page_mem_alloc_heap p need = none) := by
  refine ⟨?_, ?_, ?_⟩
  · by_cases h : need ≤ page_get_max_insert_size_1 p <;>
      simp [page_mem_alloc_heap, h]
  · intro block heap_no q hq
    by_cases h : need ≤ page_get_max_insert_size_1 p
    · simp only [page_mem_alloc_heap, if_pos h, Option.some.injEq,
        Prod.mk.injEq] at hq
      obtain ⟨e1, e2, e3⟩ := hq
      subst e3
      exact ⟨e1.symm, e2.symm, rfl, rfl, rfl, rfl, rfl, rfl, rfl, rfl, rfl,
        rfl, rfl, rfl⟩
    · simp only [page_mem_alloc_heap, if_neg h] at hq
      exact absurd hq (by simp)
  · intro h
    simp only [page_mem_alloc_heap, if_neg h]

/-- Witness for the heap allocator on the nine-record test page with a
100-byte request. -/
theorem page_mem_alloc_heap_spec_witness :
    ((page_mem_alloc_heap testPageSplit 100).isSome ↔
      100 ≤ page_get_max_insert_size_1 testPageSplit) ∧
    (∀ block heap_no q,
      page_mem_alloc_heap testPageSplit 100 = some (block, heap_no, q) →
      block = testPageSplit.heap_top ∧ heap_no = testPageSplit.n_heap ∧
      q.heap_top = testPageSplit.heap_top + 100 ∧
      q.n_heap = testPageSplit.n_heap + 1 ∧
      q.n_dir_slots = testPageSplit.n_dir_slots ∧
      q.slots = testPageSplit.slots ∧
      q.n_owned = testPageSplit.n_owned ∧ q.next = testPageSplit.next ∧
      q.n_recs = testPageSplit.n_recs ∧ q.free = testPageSplit.free ∧
      q.garbage = testPageSplit.garbage ∧
      q.max_trx_id = testPageSplit.max_trx_id ∧
      q.level = testPageSplit.level ∧ q.comp = testPageSplit.comp) ∧
    (¬ 100 ≤ page_get_max_insert_size_1 testPageSplit →
      page_mem_alloc_heap testPageSplit 100 = none) :=
  page_mem_alloc_heap_spec testPageSplit 100

/-- Claim C7 — delete-all equivalence: outside recovery, deleting the list
end at the infimum, at the first user record, or with `n_recs` equal to the
record count produces exactly the state of `page_create_empty`, which
preserves `max_trx_id` on leaf pages of secondary non-temporary indexes. -/
theorem page_delete_all_equiv_create_empty (rec : Nat) (p : Page)
    (idx : dict_index_t) (n_recs_arg size_arg : Option Nat)
    (recSize : Nat → Nat) (fuel : Nat)
    (hsup : rec ≠ page_get_supremum p)
    (hall : rec = page_get_infimum p ∨ n_recs_arg = some p.n_recs ∨
      p.next (page_get_infimum p) = rec) :
    page_delete_rec_list_end rec p idx n_recs_arg size_arg false recSize fuel
      = some (page_create_empty p idx) ∧
    (idx.sec_or_ibuf = true → idx.temporary = false →
      page_is_leaf p = true → p.max_trx_id ≠ 0 →
      (page_create_empty p idx).1.max_trx_id = p.max_trx_id) := by
  constructor
  · simp only [page_delete_rec_list_end, if_neg hsup, eq_self_iff_true,
      true_and]
    by_cases hC2 : (rec = page_get_infimum p ∨ n_recs_arg = some p.n_recs)
    · rw [if_pos hC2]
    · rw [if_neg hC2]
      rcases hall with h | h | h
      · exact absurd (Or.inl h) hC2
      · exact absurd (Or.inr h) hC2
      · rw [if_pos h]
  · intro hs ht hl hm
    simp [page_create_empty, page_update_max_trx_id, hs, ht, hl, hm]

/-- Witness for the delete-all equivalence: deleting from the first user
record (130) of the leaf test page under the secondary index. -/
theorem page_delete_all_equiv_create_empty_witness :
    ((130 : Nat) ≠ page_get_supremum testPageDelete ∧
      ((130 : Nat) = page_get_infimum testPageDelete ∨
        (none : Option Nat) = some testPageDelete.n_recs ∨
        testPageDelete.next (page_get_infimum testPageDelete) = 130)) ∧
    (page_delete_rec_list_end 130 testPageDelete testSecIndex none none
        false (fun _ => 10) 20
      = some (page_create_empty testPageDelete testSecIndex) ∧
    (testSecIndex.sec_or_ibuf = true → testSecIndex.temporary = false →
      page_is_leaf testPageDelete = true → testPageDelete.max_trx_id ≠ 0 →
      (page_create_empty testPageDelete testSecIndex).1.max_trx_id
        = testPageDelete.max_trx_id)) :=
  ⟨⟨by decide, Or.inr (Or.inr (by decide))⟩,
    page_delete_all_equiv_create_empty 130 testPageDelete testSecIndex
      none none (fun _ => 10) 20 (by decide)
      (Or.inr (Or.inr (by decide)))⟩

/-- Claim C8 — delete-list-end logging: outside recovery, any successful
deletion of a proper non-empty tail (the cut is neither the supremum, the
infimum nor the first user record, and not the whole record count) returns
exactly one list-end-delete log record whose two-byte payload is the page
offset of the first deleted record. -/
theorem page_delete_list_end_logging (rec : Nat) (p : Page)
    (idx : dict_index_t) (n_recs_arg size_arg : Option Nat)
    (recSize : Nat → Nat) (fuel : Nat)
    (hsup : rec ≠ page_get_supremum p)
    (hinf : rec ≠ page_get_infimum p)
    (hnrec : n_recs_arg ≠ some p.n_recs)
    (hfirst : p.next (page_get_infimum p) ≠ rec) :
    ∀ q logs, page_delete_rec_list_end rec p idx n_recs_arg size_arg false
        recSize fuel = some (q, logs) →
      logs = [LogRec.listEndDelete p.comp (mach_write_to_2 rec)] := by
  intro q logs hres
  have hC2 : ¬(rec = page_get_infimum p ∨ n_recs_arg = some p.n_recs) := by
    rintro (h | h)
    · exact hinf h
    · exact hnrec h
  have hC3 : ¬(p.next (page_get_infimum p) = rec) := hfirst
  simp only [page_delete_rec_list_end, if_neg hsup, eq_self_iff_true,
    true_and, if_neg hC2, if_neg hC3] at hres
  repeat' split at hres
  any_goals exact Option.noConfusion hres
  all_goals
    simp only [Option.some.injEq, Prod.mk.injEq,
      page_delete_rec_list_write_log] at hres
  all_goals exact hres.2.symm

/-- Claim C10 — supremum no-op: deleting the list end at the supremum
returns the page unchanged and emits no log record. -/
theorem page_delete_list_end_supremum_noop (p : Page) (idx : dict_index_t)
    (n_recs_arg size_arg : Option Nat) (recovery : Bool)
    (recSize : Nat → Nat) (fuel : Nat) :
    page_delete_rec_list_end (page_get_supremum p) p idx n_recs_arg size_arg
      recovery recSize fuel = some (p, []) := by
  simp [page_delete_rec_list_end]

/-- Witness for the supremum no-op on the test page. -/
theorem page_delete_list_end_supremum_noop_witness :
    page_delete_rec_list_end (page_get_supremum testPageDelete)
      testPageDelete testSecIndex none none false (fun _ => 10) 20
      = some (testPageDelete, []) :=
  page_delete_list_end_supremum_noop testPageDelete testSecIndex none none
    false (fun _ => 10) 20

/-- Witness for the list-end-delete logging: cutting the test page at
record 150 (a proper tail of seven records) succeeds and logs the cut
offset. -/
theorem page_delete_list_end_logging_witness :
    ((150 : Nat) ≠ page_get_supremum testPageDelete ∧
      (150 : Nat) ≠ page_get_infimum testPageDelete ∧
      (none : Option Nat) ≠ some testPageDelete.n_recs ∧
      testPageDelete.next (page_get_infimum testPageDelete) ≠ 150 ∧
      (page_delete_rec_list_end 150 testPageDelete testSecIndex none none
          false (fun _ => 10) 20).isSome = true) ∧
    (∀ q logs, page_delete_rec_list_end 150 testPageDelete testSecIndex
        none none false (fun _ => 10) 20 = some (q, logs) →
      logs = [LogRec.listEndDelete testPageDelete.comp
        (mach_write_to_2 150)]) :=
  ⟨⟨by decide, by decide, by decide, by decide, by decide⟩,
    page_delete_list_end_logging 150 testPageDelete testSecIndex none none
      (fun _ => 10) 20 (by decide) (by decide) (by decide) (by decide)⟩

/-- The next-pointer iteration commutes with one extra step. -/
theorem page_rec_next_iter_snoc (p : Page) (k r : Nat) :
    page_rec_next_iter p (k + 1) r = p.next (page_rec_next_iter p k r) := by
  induction k generalizing r with
  | zero => rfl
  | succ k ih =>
    show page_rec_next_iter p (k + 1) (p.next r) = _
    rw [ih (p.next r)]
    rfl

/-- The next-pointer iteration splits over a sum of step counts. -/
theorem page_rec_next_iter_add (p : Page) (a b r : Nat) :
    page_rec_next_iter p (a + b) r
      = page_rec_next_iter p b (page_rec_next_iter p a r) := by
  induction b with
  | zero => rfl
  | succ b ih =>
    rw [show a + (b + 1) = (a + b) + 1 by omega, page_rec_next_iter_snoc,
      ih, page_rec_next_iter_snoc]

/-- One list step from position `k` is position `k + 1`. -/
theorem page_walk_succ (p : Page) (k : Nat) :
    page_walk p (k + 1) = p.next (page_walk p k) := by
  rw [page_walk, page_rec_next_iter_snoc]
  rfl

/-- Slot positions are monotone below the slot count. -/
theorem pageDirWF_pos_le (p : Page) (pos : Nat → Nat)
    (hwf : PageDirWF p pos) :
    ∀ b, b < p.n_dir_slots → ∀ a, a ≤ b → pos a ≤ pos b := by
  intro b
  induction b with
  | zero =>
    intro _ a ha
    rw [Nat.le_zero.mp ha]
  | succ b ih =>
    intro hb a ha
    by_cases h : a = b + 1
    · rw [h]
    · exact le_trans (ih (by omega) a (by omega))
        (le_of_lt (hwf.pos_mono b hb))

/-- Slot positions are strictly monotone below the slot count. -/
theorem pageDirWF_pos_lt (p : Page) (pos : Nat → Nat)
    (hwf : PageDirWF p pos) :
    ∀ a b, a < b → b < p.n_dir_slots → pos a < pos b := by
  intro a b hab hb
  have h1 : pos a ≤ pos (b - 1) :=
    pageDirWF_pos_le p pos hwf (b - 1) (by omega) a (by omega)
  have h2 : pos (b - 1) < pos (b - 1 + 1) := hwf.pos_mono (b - 1) (by omega)
  rw [show b - 1 + 1 = b by omega] at h2
  omega

/-- Loop lemma for the slot search of `page_rec_get_nth_const`: starting
at slot `i ≥ 1` with the remaining count `n - pos (i-1) - 1`, the search
stops at the first slot `j` whose position reaches `n`, returning the
offset of `n` within that slot's records. -/
theorem page_nth_search_spec (p : Page) (pos : Nat → Nat)
    (hwf : PageDirWF p pos) (n : Nat)
    (hn : n ≤ pos (p.n_dir_slots - 1)) :
    ∀ fuel i, 0 < i → i < p.n_dir_slots → pos (i - 1) < n →
    p.n_dir_slots - i ≤ fuel →
    ∃ j, i ≤ j ∧ j < p.n_dir_slots ∧ pos (j - 1) < n ∧ n ≤ pos j ∧
      page_nth_slot_search p (n - pos (i - 1) - 1) i fuel
        = some (j, n - pos (j - 1) - 1) := by
  intro fuel
  induction fuel with
  | zero =>
    intro i _ hi _ hf
    omega
  | succ fuel ih =>
    intro i h0i hi hlow hf
    have hown : p.n_owned (p.slots i) = pos i - pos (i - 1) := by
      rw [hwf.slot_eq i hi, hwf.own_slot i h0i hi]
    have hprev : pos (i - 1) < pos i := by
      have := hwf.pos_mono (i - 1) (by omega)
      rw [show i - 1 + 1 = i by omega] at this
      exact this
    by_cases hle : n ≤ pos i
    · refine ⟨i, le_refl i, hi, hlow, hle, ?_⟩
      show (if n - pos (i - 1) - 1 < p.n_owned (p.slots i) then _ else _) = _
      rw [hown, if_pos (by omega)]
    · have him : i + 1 < p.n_dir_slots := by
        by_contra hc
        have : i = p.n_dir_slots - 1 := by omega
        rw [this] at hle
        exact hle hn
      obtain ⟨j, hj1, hj2, hj3, hj4, hj5⟩ := ih (i + 1) (by omega) him
        (by rw [show i + 1 - 1 = i by omega]; omega) (by omega)
      refine ⟨j, by omega, hj2, hj3, hj4, ?_⟩
      show (if n - pos (i - 1) - 1 < p.n_owned (p.slots i) then _ else _) = _
      rw [hown, if_neg (by omega)]
      rw [show n - pos (i - 1) - 1 - (pos i - pos (i - 1))
          = n - pos (i + 1 - 1) - 1 by
        rw [show i + 1 - 1 = i by omega]; omega]
      exact hj5

/-- Loop lemma for the forward owner search: from position `k` strictly
inside slot `i`'s range `(pos (i-1), pos i]`, the walk skips the zero
counts and stops at slot `i`'s owner, having counted the steps. -/
theorem page_owner_walk_spec (p : Page) (pos : Nat → Nat)
    (hwf : PageDirWF p pos) (i : Nat) (hi : i < p.n_dir_slots)
    (h0i : 0 < i) :
    ∀ d k c fuel, k + d = pos i → pos (i - 1) < k → d ≤ fuel →
    page_owner_walk p fuel (page_walk p k) c
      = some (page_walk p (pos i), c + d) := by
  intro d
  induction d with
  | zero =>
    intro k c fuel hk hlow _
    have hk2 : k = pos i := by omega
    subst hk2
    have hown : p.n_owned (page_walk p (pos i)) ≠ 0 := by
      rw [hwf.own_slot i h0i hi]
      omega
    cases fuel with
    | zero => simp [page_owner_walk, hown]
    | succ fuel => simp [page_owner_walk, hown]
  | succ d ih =>
    intro k c fuel hk hlow hd
    have hklt : k < pos i := by omega
    have hkle : k ≤ pos (p.n_dir_slots - 1) :=
      le_trans (le_of_lt hklt)
        (pageDirWF_pos_le p pos hwf (p.n_dir_slots - 1) (by omega) i
          (by omega))
    have hzero : p.n_owned (page_walk p k) = 0 := by
      refine hwf.own_zero k hkle ?_
      intro j hj
      by_cases hij : j < i
      · have : pos j ≤ pos (i - 1) :=
          pageDirWF_pos_le p pos hwf (i - 1) (by omega) j (by omega)
        omega
      · have : pos i ≤ pos j :=
          pageDirWF_pos_le p pos hwf j hj i (by omega)
        omega
    cases fuel with
    | zero => omega
    | succ fuel =>
      show (if p.n_owned (page_walk p k) ≠ 0 then _
        else page_owner_walk p fuel (p.next (page_walk p k)) (c + 1)) = _
      rw [if_neg (by rw [hzero]; exact fun h => h rfl)]
      rw [← page_walk_succ]
      rw [show c + (d + 1) = (c + 1) + d by omega]
      exact ih (k + 1) (c + 1) fuel (by omega) (by omega) (by omega)

/-- Loop lemma for the slot accumulation of `page_rec_get_n_recs_before`:
scanning from slot `j` toward the slot `i` owning the target record adds
the owned counts of slots `j..i`, which telescope to the position
difference. -/
theorem page_n_recs_scan_spec (p : Page) (pos : Nat → Nat)
    (hwf : PageDirWF p pos) (i : Nat) (hi : i < p.n_dir_slots) :
    ∀ d j (acc : Int) fuel, j + d = i → d < fuel →
    page_n_recs_slot_scan p (page_walk p (pos i)) j acc fuel
      = some (acc + ((pos i : Int) + 1
          - (if j = 0 then 0 else (pos (j - 1) : Int) + 1))) := by
  intro d
  induction d with
  | zero =>
    intro j acc fuel hj hd
    have hj2 : j = i := by omega
    subst hj2
    cases fuel with
    | zero => omega
    | succ fuel =>
      show (if p.slots j = page_walk p (pos j) then
          some (acc + (p.n_owned (p.slots j) : Int))
        else page_n_recs_slot_scan p (page_walk p (pos j)) (j + 1)
          (acc + (p.n_owned (p.slots j) : Int)) fuel) = _
      rw [if_pos (hwf.slot_eq j hi)]
      rw [Option.some.injEq]
      by_cases hj0 : j = 0
      · subst hj0
        have hone : p.n_owned (p.slots 0) = 1 := by
          rw [hwf.slot_eq 0 hi, hwf.pos_zero, hwf.own_inf]
        rw [hone, hwf.pos_zero]
        simp
      · have hown : p.n_owned (p.slots j) = pos j - pos (j - 1) := by
          rw [hwf.slot_eq j hi, hwf.own_slot j (by omega) hi]
        have hple : pos (j - 1) ≤ pos j :=
          pageDirWF_pos_le p pos hwf j hi (j - 1) (by omega)
        rw [hown, if_neg hj0]
        omega
  | succ d ih =>
    intro j acc fuel hj hd
    have hjlt : j < i := by omega
    cases fuel with
    | zero => omega
    | succ fuel =>
      show (if p.slots j = page_walk p (pos i) then
          some (acc + (p.n_owned (p.slots j) : Int))
        else page_n_recs_slot_scan p (page_walk p (pos i)) (j + 1)
          (acc + (p.n_owned (p.slots j) : Int)) fuel) = _
      have hne : p.slots j ≠ page_walk p (pos i) := by
        rw [hwf.slot_eq j (by omega)]
        intro hcontra
        have hposle : pos j ≤ pos (p.n_dir_slots - 1) :=
          pageDirWF_pos_le p pos hwf (p.n_dir_slots - 1) (by omega) j
            (by omega)
        have hposle2 : pos i ≤ pos (p.n_dir_slots - 1) :=
          pageDirWF_pos_le p pos hwf (p.n_dir_slots - 1) (by omega) i
            (by omega)
        have := hwf.walk_inj (pos j) (pos i) hposle hposle2 hcontra
        have hlt := pageDirWF_pos_lt p pos hwf j i hjlt hi
        omega
      rw [if_neg hne]
      rw [ih (j + 1) (acc + (p.n_owned (p.slots j) : Int)) fuel (by omega)
        (by omega)]
      rw [Option.some.injEq]
      rw [if_neg (Nat.succ_ne_zero j)]
      rw [show j + 1 - 1 = j by omega]
      by_cases hj0 : j = 0
      · subst hj0
        have hone : p.n_owned (p.slots 0) = 1 := by
          rw [hwf.slot_eq 0 (by omega), hwf.pos_zero, hwf.own_inf]
        rw [hone, hwf.pos_zero, if_pos rfl]
        omega
      · have hown : p.n_owned (p.slots j) = pos j - pos (j - 1) := by
          rw [hwf.slot_eq j (by omega), hwf.own_slot j (by omega) (by omega)]
        have hple : pos (j - 1) ≤ pos j :=
          pageDirWF_pos_le p pos hwf j (by omega) (j - 1) (by omega)
        rw [hown, if_neg hj0]
        omega

/-- Claim C9 — nth-record inverse: on a page whose directory satisfies the
structural invariants, for every list position `n` up to the last slot's
position, `page_rec_get_nth_const` returns the record at position `n`, and
`page_rec_get_n_recs_before` maps that record back to `n`: the two
directory-guided position functions are mutually inverse. -/
theorem page_nth_inverse (p : Page) (pos : Nat → Nat)
    (hwf : PageDirWF p pos) (n fuel : Nat)
    (hn : n ≤ pos (p.n_dir_slots - 1))
    (hfuel : p.n_dir_slots + pos (p.n_dir_slots - 1) < fuel) :
    page_rec_get_nth_const p n fuel = some (page_walk p n) ∧
    page_rec_get_n_recs_before p (page_walk p n) fuel = some n := by
  have hm := hwf.two_slots
  by_cases hn0 : n = 0
  · subst hn0
    constructor
    · rw [page_rec_get_nth_const, if_pos rfl]
      rfl
    · have hown : p.n_owned (page_walk p 0) ≠ 0 := by
        rw [hwf.own_inf]
        omega
      have howalk : page_owner_walk p fuel (page_walk p 0) 0
          = some (page_walk p 0, 0) := by
        cases fuel with
        | zero => simp [page_owner_walk, hown]
        | succ f => simp [page_owner_walk, hown]
      have hscan := page_n_recs_scan_spec p pos hwf 0 (by omega) 0 0
        (-((0 : Nat) : Int)) fuel (by omega) (by omega)
      rw [hwf.pos_zero] at hscan
      simp only [page_rec_get_n_recs_before, howalk]
      rw [hscan]
      norm_num
  · obtain ⟨f, rfl⟩ : ∃ f, fuel = f + 1 := ⟨fuel - 1, by omega⟩
    obtain ⟨j, hj1, hj2, hj3, hj4, hj5⟩ :=
      page_nth_search_spec p pos hwf n hn f 1 (by omega) (by omega)
        (by rw [show (1 : Nat) - 1 = 0 from rfl, hwf.pos_zero]; omega)
        (by omega)
    constructor
    · simp only [page_rec_get_nth_const, if_neg hn0]
      have hone : p.n_owned (p.slots 0) = 1 := by
        rw [hwf.slot_eq 0 (by omega), hwf.pos_zero, hwf.own_inf]
      have hstep : page_nth_slot_search p n 0 (f + 1)
          = page_nth_slot_search p (n - pos (1 - 1) - 1) 1 f := by
        show (if n < p.n_owned (p.slots 0) then some (0, n)
          else page_nth_slot_search p (n - p.n_owned (p.slots 0)) 1 f) = _
        rw [hone, if_neg (by omega)]
        rw [show (1 : Nat) - 1 = 0 from rfl, hwf.pos_zero]
        congr 1
      rw [hstep, hj5]
      show some (page_rec_next_iter p (n - pos (j - 1) - 1 + 1)
        (p.slots (j - 1))) = _
      rw [hwf.slot_eq (j - 1) (by omega)]
      simp only [page_walk]
      rw [← page_rec_next_iter_add]
      rw [show pos (j - 1) + (n - pos (j - 1) - 1 + 1) = n by omega]
    · have howalk := page_owner_walk_spec p pos hwf j hj2 (by omega)
        (pos j - n) n 0 (f + 1) (by omega) hj3
        (by
          have : pos j ≤ pos (p.n_dir_slots - 1) :=
            pageDirWF_pos_le p pos hwf (p.n_dir_slots - 1) (by omega) j
              (by omega)
          omega)
      simp only [page_rec_get_n_recs_before, howalk, Nat.zero_add]
      have hscan := page_n_recs_scan_spec p pos hwf j hj2 j 0
        (-((pos j - n : Nat) : Int)) (f + 1) (by omega) (by omega)
      rw [hscan, if_pos rfl, Option.some.injEq]
      omega

/-- The nine-record test page satisfies the directory invariants with the
position map `testPagePos`. -/
theorem testPageSplit_wf : PageDirWF testPageSplit testPagePos := by
  have hmono : ∀ i, i < 2 → testPagePos i < testPagePos (i + 1) := by decide
  have hslot : ∀ i, i < 3 →
      testPageSplit.slots i = page_walk testPageSplit (testPagePos i) := by
    decide
  have hown : ∀ i, i < 3 → 0 < i →
      testPageSplit.n_owned (page_walk testPageSplit (testPagePos i))
        = testPagePos i - testPagePos (i - 1) := by decide
  have hzero : ∀ k, k < 11 →
      (∀ i, i < 3 → testPagePos i ≠ k) →
      testPageSplit.n_owned (page_walk testPageSplit k) = 0 := by decide
  have hinj : ∀ k1, k1 < 11 → ∀ k2, k2 < 11 →
      page_walk testPageSplit k1 = page_walk testPageSplit k2 →
      k1 = k2 := by decide
  refine ⟨by decide, rfl, ?_, ?_, by decide, ?_, ?_, ?_⟩
  · intro i hi
    have hi2 : i + 1 < 3 := hi
    exact hmono i (by omega)
  · intro i hi
    exact hslot i hi
  · intro i h0i hi
    exact hown i hi h0i
  · intro k hk hni
    have hk2 : k ≤ 10 := hk
    exact hzero k (by omega) hni
  · intro k1 k2 h1 h2 heq
    have h1b : k1 ≤ 10 := h1
    have h2b : k2 ≤ 10 := h2
    exact hinj k1 (by omega) k2 (by omega) heq

/-- Witness for the nth-record inverse at position 5 of the test page. -/
theorem page_nth_inverse_witness :
    (PageDirWF testPageSplit testPagePos ∧
      5 ≤ testPagePos (testPageSplit.n_dir_slots - 1) ∧
      testPageSplit.n_dir_slots
        + testPagePos (testPageSplit.n_dir_slots - 1) < 14) ∧
    (page_rec_get_nth_const testPageSplit 5 14
        = some (page_walk testPageSplit 5) ∧
      page_rec_get_n_recs_before testPageSplit
          (page_walk testPageSplit 5) 14 = some 5) :=
  ⟨⟨testPageSplit_wf, by decide, by decide⟩,
    page_nth_inverse testPageSplit testPagePos testPageSplit_wf 5 14
      (by decide) (by decide)⟩

/-- Witness for the codec round trip on the four-field test tuple (a fixed
int, a two-byte-length varchar, a SQL null and an external reference). -/
theorem rec_codec_roundtrip_witness :
    dtuple_respects testIndex testTuple 1 ∧
    (∃ es extra anyExt,
      rec_get_offsets testIndex
          (rec_convert_dtuple_to_rec testIndex testTuple .ordinary 1)
        = some (es, extra, anyExt) ∧
      es.length = testTuple.length ∧
      ∀ i, i < testTuple.length →
        ((testTuple.getD i dfield0).isNull = true →
          (es.getD i foffs0).sqlNull = true) ∧
        ((testTuple.getD i dfield0).isNull = false →
          (es.getD i foffs0).sqlNull = false ∧
          (es.getD i foffs0).ext = (testTuple.getD i dfield0).ext ∧
          rec_get_nth_field es
              (rec_convert_dtuple_to_rec testIndex testTuple .ordinary
                1).recData i
            = some (testTuple.getD i dfield0).data)) :=
  ⟨by unfold dtuple_respects dtuple_respects_comp dtuple_respects_old dfield_respects; decide,
    rec_codec_roundtrip testIndex testTuple 1
      (by unfold dtuple_respects dtuple_respects_comp dtuple_respects_old
            dfield_respects
          decide)⟩

/-- Witness for the size law on the four-field test tuple in the ordinary
status. -/
theorem rec_converted_size_law_witness :
    dtuple_status_wf testIndex testTuple .ordinary ∧
    ((rec_convert_dtuple_to_rec_new testIndex testTuple .ordinary).2.length
        = (rec_get_converted_size_comp testIndex .ordinary testTuple).2 ∧
      (rec_convert_dtuple_to_rec_new testIndex testTuple .ordinary).1
        = (rec_get_converted_size_comp testIndex .ordinary testTuple).1 ∧
      (rec_comp_extra_bytes
          (rec_convert_dtuple_to_rec_comp testIndex testTuple
            .ordinary)).length
        = (rec_get_converted_size_comp testIndex .ordinary testTuple).1) :=
  ⟨by unfold dtuple_status_wf dtuple_respects_comp dfield_respects; decide,
    rec_converted_size_law testIndex testTuple .ordinary
      (by unfold dtuple_status_wf dtuple_respects_comp dfield_respects
          decide)⟩
